import Mathlib

/-!
Verification of the MinesClone game engine (src/main.cpp).

The C++ source is shallowly embedded: the grid is a list of lists of cells
(mirroring a vector of vectors), machine integers are natural numbers with
explicit reduction modulo 2^32 where the source uses uint32_t arithmetic,
and the recursive flood fill is embedded with an explicit fuel parameter
whose sufficiency is proved separately (the source recursion is bounded by
the number of unrevealed cells).

Randomness in grid generation (rand() draws in fill_grid) is made explicit
as a boolean matrix parameter, and the indeterminate value of the
uninitialized first_move field of the Game constructor is made explicit as
a boolean parameter.
-/

namespace MinesClone

/-- Models the C++ enum class CellType with values EMPTY and BOMB. -/
inductive CellType
  | EMPTY
  | BOMB
deriving DecidableEq

/-- Models struct Cell: a kind plus the flagged and revealed bits.
The constructor Cell(type) initializes both booleans to false. -/
structure Cell where
  type : CellType
  is_flagged : Bool
  is_revealed : Bool
deriving DecidableEq

/-- The value-initialized cell used as lookup default (out-of-range reads in
the C++ are undefined behavior and never exercised by the modelled paths). -/
def defaultCell : Cell := ⟨CellType.EMPTY, false, false⟩

instance : Inhabited Cell := ⟨defaultCell⟩

/-- Models std::vector of std::vector of Cell. -/
abbrev Grid := List (List Cell)

/-- Number of rows, grid.size() in the source. -/
def rows (g : Grid) : Nat := g.length

/-- Number of columns, grid[0].size() in the source. -/
def cols (g : Grid) : Nat := (g.headD []).length

/-- Models the C++ function outside(grid, i, j):
i < 0 or j < 0 or i >= grid.size() or j >= grid[0].size(). -/
def outside (g : Grid) (i j : Int) : Bool :=
  decide (i < 0) || decide (j < 0) ||
    decide ((rows g : Int) ≤ i) || decide ((cols g : Int) ≤ j)

/-- In-bounds coordinates, the negation of outside. -/
def inBounds (g : Grid) (i j : Int) : Prop := outside g i j = false

instance (g : Grid) (i j : Int) : Decidable (inBounds g i j) := by
  unfold inBounds; infer_instance

/-- Reads grid[i][j]; used only at in-bounds coordinates in the engine. -/
def cellAt (g : Grid) (i j : Int) : Cell :=
  (g.getD i.toNat []).getD j.toNat defaultCell

/-- Updates one entry of a list in place; identity past the end. -/
def listModify {α : Type} : List α → Nat → (α → α) → List α
  | [], _, _ => []
  | a :: as, 0, f => f a :: as
  | a :: as, n + 1, f => a :: listModify as n f

/-- Writes grid[i][j] through the update function f.  The engine only calls
this at in-bounds coordinates (where the C++ mutates grid[i][j]). -/
def setCell (g : Grid) (i j : Int) (f : Cell → Cell) : Grid :=
  listModify g i.toNat (fun row => listModify row j.toNat f)

/-- The four orthogonal directions, in source order. -/
def dir4 : List (Int × Int) := [(0, 1), (1, 0), (0, -1), (-1, 0)]

/-- The eight neighbor directions, in source order. -/
def dir8 : List (Int × Int) :=
  [(0, 1), (1, 0), (0, -1), (-1, 0), (1, 1), (1, -1), (-1, 1), (-1, -1)]

/-- Models count_neighbors: the number of in-bounds 8-neighbors of (i, j)
satisfying the predicate; 0 when (i, j) itself is out of bounds. -/
def count_neighbors (g : Grid) (i j : Int) (p : Cell → Bool) : Nat :=
  if outside g i j then 0
  else (dir8.filter (fun d =>
    !outside g (i + d.1) (j + d.2) && p (cellAt g (i + d.1) (j + d.2)))).length

/-- Models count_bomb_neighbors. -/
def count_bomb_neighbors (g : Grid) (i j : Int) : Nat :=
  count_neighbors g i j (fun c => c.type == CellType.BOMB)

/-- Models count_flagged_neighbors. -/
def count_flagged_neighbors (g : Grid) (i j : Int) : Nat :=
  count_neighbors g i j (fun c => c.is_flagged)

/-- Models the C++ enum class GameState. -/
inductive GameState
  | OVER
  | ACTIVE
deriving DecidableEq

/-- Models the C++ enum class PlayerMove. -/
inductive PlayerMove
  | Success
  | NA
  | LosingMove
  | OutBounds
deriving DecidableEq

/-- The modulus of uint32_t arithmetic. -/
def U32 : Nat := 4294967296

/-- Models struct Game.  The bomb_likelihood float is omitted: it only feeds
the random draws of fill_grid, which are abstracted as a parameter of
mkGame. -/
structure Game where
  count_bombs : Nat
  count_flagged : Nat
  count_revealed : Nat
  first_move : Bool
  state : GameState
  grid : Grid
deriving DecidableEq

/-- Models the constructor Game(m, n, bomb_likelihood) together with
fill_grid.  The per-cell random draws ((rand() % 100) / 100.0f compared to
bomb_likelihood) are abstracted as the boolean matrix bomb.  The constructor
does NOT initialize first_move; its indeterminate initial value is the
explicit parameter fm. -/
def mkGame (m n : Nat) (bomb : Nat → Nat → Bool) (fm : Bool) : Game :=
  { count_bombs :=
      (((List.range m).map
        (fun i => ((List.range n).filter (fun j => bomb i j)).length)).sum) % U32
  , count_flagged := 0
  , count_revealed := 0
  , first_move := fm
  , state := GameState.ACTIVE
  , grid := (List.range m).map (fun i => (List.range n).map (fun j =>
      ⟨if bomb i j then CellType.BOMB else CellType.EMPTY, false, false⟩)) }

/-- Models Game::restart: reactivate, zero the flag and reveal counters, and
clear every cell's flagged and revealed bits, keeping the mine layout. -/
def Game.restart (g : Game) : Game :=
  { g with
    first_move := true
    state := GameState.ACTIVE
    count_flagged := 0
    count_revealed := 0
    grid := g.grid.map (fun row => row.map
      (fun c => { c with is_flagged := false, is_revealed := false })) }

/-- Models is_won: count_revealed == grid.size() * grid[0].size() - count_bombs
(size_t arithmetic; count_bombs never exceeds the cell count). -/
def is_won (g : Game) : Bool :=
  g.count_revealed == rows g.grid * cols g.grid - g.count_bombs

/-- The guard at the top of expand: return when out of bounds, a bomb,
already revealed, or flagged. -/
def expandGuard (g : Game) (i j : Int) : Bool :=
  outside g.grid i j || (cellAt g.grid i j).type == CellType.BOMB ||
    (cellAt g.grid i j).is_revealed || (cellAt g.grid i j).is_flagged

/-- The two mutation lines of expand: set grid[i][j].is_revealed = true and
increment count_revealed (uint32_t). -/
def markRevealed (g : Game) (i j : Int) : Game :=
  { g with
    grid := setCell g.grid i j (fun c => { c with is_revealed := true })
    count_revealed := (g.count_revealed + 1) % U32 }

/-- Models the recursive expand(game, i, j) with an explicit fuel bound on
the recursion depth.  The source recursion reveals one new cell before each
level of nesting, so any fuel exceeding the number of unrevealed cells makes
the embedding agree with the unbounded C++ recursion (proved below as fuel
stabilization). -/
def expandF : Nat → Game → Int → Int → Game
  | 0, g, _, _ => g
  | fuel + 1, g, i, j =>
    if expandGuard g i j then g
    else if count_flagged_neighbors (markRevealed g i j).grid i j ≠
        count_bomb_neighbors (markRevealed g i j).grid i j
    then markRevealed g i j
    else dir4.foldl (fun acc d => expandF fuel acc (i + d.1) (j + d.2))
      (markRevealed g i j)

/-- Counts cells of the grid satisfying a predicate. -/
def gridCount (p : Cell → Bool) (g : Grid) : Nat :=
  (g.map (fun row => row.countP p)).sum

/-- The number of cells whose revealed bit is set. -/
def revealedCells (g : Grid) : Nat := gridCount (fun c => c.is_revealed) g

/-- The number of cells whose flagged bit is set. -/
def flaggedCells (g : Grid) : Nat := gridCount (fun c => c.is_flagged) g

/-- The number of cells whose revealed bit is clear. -/
def unrevealedCount (g : Grid) : Nat := gridCount (fun c => !c.is_revealed) g

/-- The total number of cells of the grid. -/
def gridCells (g : Grid) : Nat := (g.map List.length).sum

/-- expand(game, i, j): the recursion with fuel that provably suffices. -/
def expand (g : Game) (i j : Int) : Game :=
  expandF (unrevealedCount g.grid + 1) g i j

/-- Models try_reveal(game, place).  Returns the PlayerMove result together
with the updated game. -/
def try_reveal (g : Game) (i j : Int) : PlayerMove × Game :=
  if outside g.grid i j then (PlayerMove.OutBounds, g)
  else if (cellAt g.grid i j).is_flagged then (PlayerMove.NA, g)
  else if (cellAt g.grid i j).type == CellType.BOMB then
    (PlayerMove.LosingMove,
      { g with grid := setCell g.grid i j (fun c => { c with is_revealed := true }) })
  else if !(cellAt g.grid i j).is_revealed then
    (PlayerMove.Success,
      { expand g i j with
        grid := setCell (expand g i j).grid i j (fun c => { c with is_revealed := true }) })
  else if count_flagged_neighbors g.grid i j ≠ count_bomb_neighbors g.grid i j then
    (PlayerMove.Success, g)
  else
    (PlayerMove.Success,
      dir8.foldl (fun acc d => expand acc (i + d.1) (j + d.2)) g)

/-- Models try_set_flag(game, place, value): count_flagged += value ? 1 : -1
in uint32_t arithmetic, then grid[i][j].is_flagged = value. -/
def try_set_flag (g : Game) (i j : Int) (value : Bool) : PlayerMove × Game :=
  if outside g.grid i j then (PlayerMove.OutBounds, g)
  else if (cellAt g.grid i j).is_revealed then (PlayerMove.NA, g)
  else
    (PlayerMove.Success,
      { g with
        count_flagged := (g.count_flagged + (if value then 1 else U32 - 1)) % U32
        grid := setCell g.grid i j (fun c => { c with is_flagged := value }) })

/-- The first-move special case inside the reveal command:
if (game.first_move) game.grid[i][j].type = CellType::EMPTY.
The C++ write is unchecked and is undefined behavior when (i, j) is out of
bounds; the model makes that case a no-op.  Note the bomb counter is NOT
adjusted when a bomb cell is overwritten. -/
def revealFirstMoveFix (g : Game) (i j : Int) : Game :=
  if outside g.grid i j then g
  else { g with grid := setCell g.grid i j (fun c => { c with type := CellType.EMPTY }) }

/-- Models the loop body of the CLI function reveal(game, command) over the
already-parsed coordinate pairs: apply the first-move fix while first_move
holds, clear first_move, call try_reveal, and on LosingMove set the game
state to OVER and stop processing further pairs. -/
def revealCmd : Game → List (Int × Int) → Game
  | g, [] => g
  | g, (i, j) :: rest =>
    let g1 := if g.first_move then revealFirstMoveFix g i j else g
    let g2 := { g1 with first_move := false }
    match try_reveal g2 i j with
    | (PlayerMove.LosingMove, g3) => { g3 with state := GameState.OVER }
    | (_, g3) => revealCmd g3 rest

/-- Models the loop body of the CLI function flag(game, command, value) over
the already-parsed coordinate pairs. -/
def flagCmd (value : Bool) : Game → List (Int × Int) → Game
  | g, [] => g
  | g, (i, j) :: rest => flagCmd value (try_set_flag g i j value).2 rest

/-- Unsigned 32-bit subtraction a - b as used in print_bombs_left. -/
def sub32 (a b : Nat) : Nat := (a + (U32 - b % U32)) % U32

/-- The value printed by print_bombs_left:
std::max(count_bombs - count_flagged, 0u) in uint32_t arithmetic (so the
subtraction wraps and the max against 0u is the identity). -/
def bombs_left (g : Game) : Nat :=
  max (sub32 g.count_bombs g.count_flagged) 0

/-! Basic lemmas about listModify and counting. -/

theorem listModify_length {α : Type} (l : List α) (n : Nat) (f : α → α) :
    (listModify l n f).length = l.length := by
  induction l generalizing n with
  | nil => rfl
  | cons a as ih =>
    cases n with
    | zero => rfl
    | succ n => simpa [listModify] using ih n

theorem getD_listModify {α : Type} (l : List α) (n m : Nat) (f : α → α) (d : α) :
    (listModify l n f).getD m d =
      if m = n ∧ n < l.length then f (l.getD m d) else l.getD m d := by
  induction l generalizing n m with
  | nil => simp [listModify]
  | cons a as ih =>
    cases n with
    | zero =>
      cases m with
      | zero => simp [listModify]
      | succ m => simp [listModify]
    | succ n =>
      cases m with
      | zero => simp [listModify]
      | succ m =>
        simp only [listModify, List.getD_cons_succ, List.length_cons, ih n m]
        by_cases h : m = n ∧ n < as.length
        · rw [if_pos h, if_pos ⟨by omega, by omega⟩]
        · rw [if_neg h, if_neg (by omega)]

theorem countP_listModify {α : Type} (p : α → Bool) (l : List α) (n : Nat) (f : α → α)
    (d : α) (hn : n < l.length) :
    (listModify l n f).countP p + (if p (l.getD n d) then 1 else 0)
      = l.countP p + (if p (f (l.getD n d)) then 1 else 0) := by
  induction l generalizing n with
  | nil => simp at hn
  | cons a as ih =>
    cases n with
    | zero =>
      simp only [listModify, List.countP_cons, List.getD_cons_zero]
      omega
    | succ n =>
      have hn' : n < as.length := by simpa using hn
      have := ih n hn'
      simp only [listModify, List.countP_cons, List.getD_cons_succ]
      omega

theorem countP_listModify_of_pres {α : Type} (p : α → Bool) (l : List α) (n : Nat)
    (f : α → α) (hf : ∀ a, p (f a) = p a) :
    (listModify l n f).countP p = l.countP p := by
  induction l generalizing n with
  | nil => rfl
  | cons a as ih =>
    cases n with
    | zero => simp [listModify, List.countP_cons, hf]
    | succ n => simp [listModify, List.countP_cons, ih n]

theorem countP_listModify_le {α : Type} (p : α → Bool) (l : List α) (n : Nat)
    (f : α → α) (hf : ∀ a, p (f a) = true → p a = true) :
    (listModify l n f).countP p ≤ l.countP p := by
  induction l generalizing n with
  | nil => simp [listModify]
  | cons a as ih =>
    cases n with
    | zero =>
      simp only [listModify, List.countP_cons]
      have : (if p (f a) then 1 else 0) ≤ (if p a then 1 else 0) := by
        by_cases h : p (f a) = true
        · simp [h, hf a h]
        · simp [h]
      omega
    | succ n =>
      simp only [listModify, List.countP_cons]
      have := ih n
      omega

theorem sum_map_listModify {α : Type} (h : α → Nat) (l : List α) (n : Nat) (f : α → α)
    (d : α) (hn : n < l.length) :
    ((listModify l n f).map h).sum + h (l.getD n d)
      = (l.map h).sum + h (f (l.getD n d)) := by
  induction l generalizing n with
  | nil => simp at hn
  | cons a as ih =>
    cases n with
    | zero => simp [listModify]; omega
    | succ n =>
      have hn' : n < as.length := by simpa using hn
      have := ih n hn'
      simp only [listModify, List.map_cons, List.sum_cons, List.getD_cons_succ]
      omega

theorem sum_map_listModify_of_pres {α : Type} (h : α → Nat) (l : List α) (n : Nat)
    (f : α → α) (hf : ∀ a, h (f a) = h a) :
    ((listModify l n f).map h).sum = (l.map h).sum := by
  induction l generalizing n with
  | nil => rfl
  | cons a as ih =>
    cases n with
    | zero => simp [listModify, hf]
    | succ n => simp [listModify, ih n]

theorem sum_map_listModify_le {α : Type} (h : α → Nat) (l : List α) (n : Nat)
    (f : α → α) (hf : ∀ a, h (f a) ≤ h a) :
    ((listModify l n f).map h).sum ≤ (l.map h).sum := by
  induction l generalizing n with
  | nil => simp [listModify]
  | cons a as ih =>
    cases n with
    | zero => simp only [listModify, List.map_cons, List.sum_cons]; have := hf a; omega
    | succ n => simp only [listModify, List.map_cons, List.sum_cons]; have := ih n; omega

theorem getD_mem_of_lt {α : Type} (l : List α) (n : Nat) (d : α) (h : n < l.length) :
    l.getD n d ∈ l := by
  rw [List.getD_eq_getElem l d h]; exact List.getElem_mem h

/-! Grid-level lemmas: shape, rectangularity, reads after writes, counting. -/

/-- The row lengths of a grid; all engine operations preserve it. -/
def shape (g : Grid) : List Nat := g.map List.length

/-- The grids produced by fill_grid are rectangular: every row has cols g
entries.  Every engine operation preserves this. -/
def rect (g : Grid) : Prop := ∀ row ∈ g, row.length = cols g

instance (g : Grid) : Decidable (rect g) := by
  unfold rect; infer_instance

theorem rows_eq_shape (g : Grid) : rows g = (shape g).length := by
  simp [rows, shape]

theorem cols_eq_shape (g : Grid) : cols g = (shape g).headD 0 := by
  cases g with
  | nil => rfl
  | cons r t => rfl

theorem rows_eq_of_shape {g g' : Grid} (h : shape g' = shape g) : rows g' = rows g := by
  rw [rows_eq_shape, rows_eq_shape, h]

theorem cols_eq_of_shape {g g' : Grid} (h : shape g' = shape g) : cols g' = cols g := by
  rw [cols_eq_shape, cols_eq_shape, h]

theorem outside_eq_of_shape {g g' : Grid} (h : shape g' = shape g) (i j : Int) :
    outside g' i j = outside g i j := by
  simp [outside, rows_eq_of_shape h, cols_eq_of_shape h]

theorem rect_of_shape_eq {g g' : Grid} (h : shape g' = shape g) (hr : rect g) :
    rect g' := by
  intro row hrow
  rw [cols_eq_of_shape h]
  have hmem : row.length ∈ shape g' := List.mem_map_of_mem _ hrow
  rw [h] at hmem
  obtain ⟨row', hrow', hlen⟩ := List.mem_map.mp hmem
  rw [← hlen]
  exact hr _ hrow'

theorem shape_listModify (g : Grid) (n : Nat) (f : List Cell → List Cell)
    (hf : ∀ row, (f row).length = row.length) :
    shape (listModify g n f) = shape g := by
  induction g generalizing n with
  | nil => rfl
  | cons r t ih =>
    cases n with
    | zero => simp [listModify, shape, hf]
    | succ n => simpa [listModify, shape] using ih n

theorem shape_setCell (g : Grid) (i j : Int) (f : Cell → Cell) :
    shape (setCell g i j f) = shape g :=
  shape_listModify g i.toNat _ (fun row => listModify_length row j.toNat f)

/-- Reading a cell after a single-cell write: the written cell when the
indices coincide and the write landed in range, the old cell otherwise. -/
theorem cellAt_setCell (g : Grid) (i j p q : Int) (f : Cell → Cell) :
    cellAt (setCell g i j f) p q =
      if p.toNat = i.toNat ∧ i.toNat < g.length ∧ q.toNat = j.toNat ∧
          j.toNat < (g.getD i.toNat []).length
      then f (cellAt g p q) else cellAt g p q := by
  unfold cellAt setCell
  rw [getD_listModify]
  by_cases hrow : p.toNat = i.toNat ∧ i.toNat < g.length
  · rw [if_pos hrow]
    rw [getD_listModify]
    have hpi := hrow.1
    by_cases hcol : q.toNat = j.toNat ∧ j.toNat < (g.getD i.toNat []).length
    · rw [if_pos (by rw [hpi]; exact hcol), if_pos ⟨hrow.1, hrow.2, hcol.1, hcol.2⟩, hpi]
    · rw [if_neg (by rw [hpi]; exact hcol), if_neg (by tauto), hpi]
  · rw [if_neg hrow, if_neg (by tauto)]

theorem inBounds_iff (g : Grid) (i j : Int) :
    inBounds g i j ↔ 0 ≤ i ∧ 0 ≤ j ∧ i < (rows g : Int) ∧ j < (cols g : Int) := by
  simp only [inBounds, outside, Bool.or_eq_false_iff, decide_eq_false_iff_not]
  omega

/-- In a rectangular grid, in-bounds coordinates give valid list indices. -/
theorem validIdx_of_inBounds {g : Grid} {i j : Int} (hr : rect g)
    (h : inBounds g i j) :
    i.toNat < g.length ∧ j.toNat < (g.getD i.toNat []).length ∧ 0 ≤ i ∧ 0 ≤ j := by
  obtain ⟨hi0, hj0, hir, hjc⟩ := (inBounds_iff g i j).mp h
  have hrow : i.toNat < g.length := by simp [rows] at hir; omega
  have hmem : g.getD i.toNat [] ∈ g := getD_mem_of_lt g i.toNat [] hrow
  have hlen : (g.getD i.toNat []).length = cols g := hr _ hmem
  refine ⟨hrow, ?_, hi0, hj0⟩
  rw [hlen]; omega

theorem int_eq_of_toNat_eq {i p : Int} (hi : 0 ≤ i) (hp : 0 ≤ p)
    (h : p.toNat = i.toNat) : p = i := by omega

/-- Reading the written cell itself, in a rectangular grid. -/
theorem cellAt_setCell_self {g : Grid} {i j : Int} (hr : rect g)
    (h : inBounds g i j) (f : Cell → Cell) :
    cellAt (setCell g i j f) i j = f (cellAt g i j) := by
  obtain ⟨h1, h2, _, _⟩ := validIdx_of_inBounds hr h
  rw [cellAt_setCell, if_pos ⟨rfl, h1, rfl, h2⟩]

theorem gridCount_setCell {g : Grid} {i j : Int} (p : Cell → Bool) (f : Cell → Cell)
    (hr : rect g) (h : inBounds g i j) :
    gridCount p (setCell g i j f) + (if p (cellAt g i j) then 1 else 0)
      = gridCount p g + (if p (f (cellAt g i j)) then 1 else 0) := by
  obtain ⟨h1, h2, _, _⟩ := validIdx_of_inBounds hr h
  unfold gridCount setCell cellAt
  have hsum := sum_map_listModify (fun row => row.countP p) g i.toNat
    (fun row => listModify row j.toNat f) [] h1
  have hrow := countP_listModify p (g.getD i.toNat []) j.toNat f defaultCell h2
  simp only [] at hsum
  omega

theorem gridCount_setCell_of_pres {g : Grid} (i j : Int) (p : Cell → Bool)
    (f : Cell → Cell) (hf : ∀ c, p (f c) = p c) :
    gridCount p (setCell g i j f) = gridCount p g := by
  unfold gridCount setCell
  exact sum_map_listModify_of_pres _ g i.toNat _
    (fun row => countP_listModify_of_pres p row j.toNat f hf)

theorem gridCount_setCell_le {g : Grid} (i j : Int) (p : Cell → Bool)
    (f : Cell → Cell) (hf : ∀ c, p (f c) = true → p c = true) :
    gridCount p (setCell g i j f) ≤ gridCount p g := by
  unfold gridCount setCell
  exact sum_map_listModify_le _ g i.toNat _
    (fun row => countP_listModify_le p row j.toNat f hf)

/-! Static data (shape, cell kinds, flags) is untouched by the flood fill. -/

/-- Two grids with the same shape and, cell for cell, the same kind and the
same flagged bit.  The flood fill only flips revealed bits, so it relates
its input and output grids. -/
def staticEq (g g' : Grid) : Prop :=
  shape g' = shape g ∧ ∀ p q : Int,
    (cellAt g' p q).type = (cellAt g p q).type ∧
    (cellAt g' p q).is_flagged = (cellAt g p q).is_flagged

theorem staticEq_refl (g : Grid) : staticEq g g := ⟨rfl, fun _ _ => ⟨rfl, rfl⟩⟩

theorem staticEq_trans {g1 g2 g3 : Grid} (h12 : staticEq g1 g2) (h23 : staticEq g2 g3) :
    staticEq g1 g3 := by
  refine ⟨h23.1.trans h12.1, fun p q => ?_⟩
  obtain ⟨ht, hf⟩ := h12.2 p q
  obtain ⟨ht', hf'⟩ := h23.2 p q
  exact ⟨ht'.trans ht, hf'.trans hf⟩

theorem staticEq_setCell_revealed (g : Grid) (i j : Int) (b : Bool) :
    staticEq g (setCell g i j (fun c => { c with is_revealed := b })) := by
  refine ⟨shape_setCell g i j _, fun p q => ?_⟩
  rw [cellAt_setCell]
  by_cases h : p.toNat = i.toNat ∧ i.toNat < g.length ∧ q.toNat = j.toNat ∧
      j.toNat < (g.getD i.toNat []).length
  · rw [if_pos h]; exact ⟨rfl, rfl⟩
  · rw [if_neg h]; exact ⟨rfl, rfl⟩

theorem count_neighbors_congr {g g' : Grid} (h : staticEq g g') (i j : Int)
    (p : Cell → Bool)
    (hp : ∀ a b : Int, p (cellAt g' a b) = p (cellAt g a b)) :
    count_neighbors g' i j p = count_neighbors g i j p := by
  unfold count_neighbors
  rw [outside_eq_of_shape h.1]
  by_cases hout : outside g i j
  · simp [hout]
  · simp only [hout, if_false, Bool.false_eq_true]
    congr 1
    apply List.filter_congr
    intro d _
    rw [outside_eq_of_shape h.1, hp]

theorem count_bomb_neighbors_congr {g g' : Grid} (h : staticEq g g') (i j : Int) :
    count_bomb_neighbors g' i j = count_bomb_neighbors g i j := by
  apply count_neighbors_congr h
  intro a b
  simp [(h.2 a b).1]

theorem count_flagged_neighbors_congr {g g' : Grid} (h : staticEq g g') (i j : Int) :
    count_flagged_neighbors g' i j = count_flagged_neighbors g i j := by
  apply count_neighbors_congr h
  intro a b
  simp [(h.2 a b).2]

/-- Invariant preservation through a foldl. -/
theorem foldl_invariant {α β : Type} (f : β → α → β) (P : β → Prop) (l : List α)
    (b : β) (hb : P b) (hf : ∀ x a, a ∈ l → P x → P (f x a)) : P (l.foldl f b) := by
  induction l generalizing b with
  | nil => exact hb
  | cons a t ih =>
    exact ih (f b a) (hf b a (by simp) hb) (fun x c hc hx => hf x c (by simp [hc]) hx)

theorem markRevealed_grid (g : Game) (i j : Int) :
    (markRevealed g i j).grid =
      setCell g.grid i j (fun c => { c with is_revealed := true }) := rfl

theorem staticEq_markRevealed (g : Game) (i j : Int) :
    staticEq g.grid (markRevealed g i j).grid :=
  staticEq_setCell_revealed g.grid i j true

/-- Unfolds one step of the flood fill at positive fuel. -/
theorem expandF_succ (fuel : Nat) (g : Game) (i j : Int) :
    expandF (fuel + 1) g i j =
      if expandGuard g i j then g
      else if count_flagged_neighbors (markRevealed g i j).grid i j ≠
          count_bomb_neighbors (markRevealed g i j).grid i j
      then markRevealed g i j
      else dir4.foldl (fun acc d => expandF fuel acc (i + d.1) (j + d.2))
        (markRevealed g i j) := rfl

theorem staticEq_expandF (fuel : Nat) :
    ∀ (g : Game) (i j : Int), staticEq g.grid (expandF fuel g i j).grid := by
  induction fuel with
  | zero => intro g i j; exact staticEq_refl _
  | succ n ih =>
    intro g i j
    rw [expandF_succ]
    by_cases hg : expandGuard g i j
    · rw [if_pos hg]; exact staticEq_refl _
    · rw [if_neg hg]
      by_cases hc : count_flagged_neighbors (markRevealed g i j).grid i j ≠
          count_bomb_neighbors (markRevealed g i j).grid i j
      · rw [if_pos hc]
        exact staticEq_markRevealed g i j
      · rw [if_neg hc]
        exact foldl_invariant _ (fun acc : Game => staticEq g.grid acc.grid) dir4
          (markRevealed g i j) (staticEq_markRevealed g i j)
          (fun x d _ hx => staticEq_trans hx (ih x (i + d.1) (j + d.2)))

theorem shape_expandF (fuel : Nat) (g : Game) (i j : Int) :
    shape (expandF fuel g i j).grid = shape g.grid :=
  (staticEq_expandF fuel g i j).1

/-- The flood fill never clears a revealed bit. -/
theorem expandF_mono (fuel : Nat) :
    ∀ (g : Game) (i j p q : Int),
      (cellAt g.grid p q).is_revealed = true →
      (cellAt (expandF fuel g i j).grid p q).is_revealed = true := by
  induction fuel with
  | zero => intro g i j p q h; exact h
  | succ n ih =>
    intro g i j p q h
    rw [expandF_succ]
    by_cases hg : expandGuard g i j
    · rw [if_pos hg]; exact h
    · rw [if_neg hg]
      have hmark : (cellAt (markRevealed g i j).grid p q).is_revealed = true := by
        rw [markRevealed_grid, cellAt_setCell]
        by_cases hc : p.toNat = i.toNat ∧ i.toNat < g.grid.length ∧ q.toNat = j.toNat ∧
            j.toNat < (g.grid.getD i.toNat []).length
        · rw [if_pos hc]
        · rw [if_neg hc]; exact h
      by_cases hc : count_flagged_neighbors (markRevealed g i j).grid i j ≠
          count_bomb_neighbors (markRevealed g i j).grid i j
      · rw [if_pos hc]; exact hmark
      · rw [if_neg hc]
        exact foldl_invariant _
          (fun acc : Game => (cellAt acc.grid p q).is_revealed = true) dir4
          (markRevealed g i j) hmark
          (fun x d _ hx => ih x (i + d.1) (j + d.2) p q hx)

/-- The flood fill never reveals a cell whose kind is BOMB. -/
theorem expandF_bomb_unrevealed (fuel : Nat) :
    ∀ (g : Game) (i j p q : Int),
      (cellAt g.grid p q).type = CellType.BOMB →
      (cellAt (expandF fuel g i j).grid p q).is_revealed =
        (cellAt g.grid p q).is_revealed := by
  induction fuel with
  | zero => intro g i j p q _; rfl
  | succ n ih =>
    intro g i j p q hb
    rw [expandF_succ]
    by_cases hg : expandGuard g i j
    · rw [if_pos hg]
    · rw [if_neg hg]
      have hne : ¬(p.toNat = i.toNat ∧ q.toNat = j.toNat) := by
        rintro ⟨hp, hq⟩
        have hcc : cellAt g.grid p q = cellAt g.grid i j := by
          unfold cellAt; rw [hp, hq]
        rw [hcc] at hb
        simp [expandGuard, hb] at hg
      have hmark : (cellAt (markRevealed g i j).grid p q).is_revealed =
          (cellAt g.grid p q).is_revealed := by
        rw [markRevealed_grid, cellAt_setCell, if_neg (by tauto)]
      have hmarkb : (cellAt (markRevealed g i j).grid p q).type = CellType.BOMB := by
        rw [(staticEq_markRevealed g i j).2 p q |>.1]; exact hb
      by_cases hc : count_flagged_neighbors (markRevealed g i j).grid i j ≠
          count_bomb_neighbors (markRevealed g i j).grid i j
      · rw [if_pos hc]; exact hmark
      · rw [if_neg hc]
        rw [← hmark]
        exact foldl_invariant _
          (fun acc : Game => (cellAt acc.grid p q).type = CellType.BOMB ∧
            (cellAt acc.grid p q).is_revealed =
              (cellAt (markRevealed g i j).grid p q).is_revealed)
          dir4 (markRevealed g i j) ⟨hmarkb, rfl⟩
          (fun x d _ hx => ⟨by
              rw [(staticEq_expandF n x (i + d.1) (j + d.2)).2 p q |>.1]; exact hx.1,
            by rw [ih x (i + d.1) (j + d.2) p q hx.1]; exact hx.2⟩) |>.2

/-- The flood fill never increases the number of unrevealed cells. -/
theorem unrev_expandF_le (fuel : Nat) :
    ∀ (g : Game) (i j : Int),
      unrevealedCount (expandF fuel g i j).grid ≤ unrevealedCount g.grid := by
  induction fuel with
  | zero => intro g i j; exact le_rfl
  | succ n ih =>
    intro g i j
    rw [expandF_succ]
    by_cases hg : expandGuard g i j
    · rw [if_pos hg]
    · rw [if_neg hg]
      have hmark : unrevealedCount (markRevealed g i j).grid ≤ unrevealedCount g.grid := by
        rw [markRevealed_grid]
        unfold unrevealedCount
        exact gridCount_setCell_le i j _ _ (by intro c h; simp at h)
      by_cases hc : count_flagged_neighbors (markRevealed g i j).grid i j ≠
          count_bomb_neighbors (markRevealed g i j).grid i j
      · rw [if_pos hc]; exact hmark
      · rw [if_neg hc]
        refine le_trans ?_ hmark
        exact foldl_invariant _
          (fun acc : Game =>
            unrevealedCount acc.grid ≤ unrevealedCount (markRevealed g i j).grid)
          dir4 (markRevealed g i j) le_rfl
          (fun x d _ hx => le_trans (ih x (i + d.1) (j + d.2)) hx)

/-! Counter bookkeeping of the flood fill. -/

theorem rect_expandF (fuel : Nat) (g : Game) (i j : Int) (hr : rect g.grid) :
    rect (expandF fuel g i j).grid :=
  rect_of_shape_eq (shape_expandF fuel g i j) hr

theorem expandF_fields (fuel : Nat) :
    ∀ (g : Game) (i j : Int),
      (expandF fuel g i j).count_flagged = g.count_flagged ∧
      (expandF fuel g i j).count_bombs = g.count_bombs ∧
      (expandF fuel g i j).state = g.state ∧
      (expandF fuel g i j).first_move = g.first_move := by
  induction fuel with
  | zero => intro g i j; exact ⟨rfl, rfl, rfl, rfl⟩
  | succ n ih =>
    intro g i j
    rw [expandF_succ]
    by_cases hg : expandGuard g i j
    · rw [if_pos hg]; exact ⟨rfl, rfl, rfl, rfl⟩
    · rw [if_neg hg]
      by_cases hc : count_flagged_neighbors (markRevealed g i j).grid i j ≠
          count_bomb_neighbors (markRevealed g i j).grid i j
      · rw [if_pos hc]; exact ⟨rfl, rfl, rfl, rfl⟩
      · rw [if_neg hc]
        exact foldl_invariant _
          (fun acc : Game => acc.count_flagged = g.count_flagged ∧
            acc.count_bombs = g.count_bombs ∧ acc.state = g.state ∧
            acc.first_move = g.first_move)
          dir4 (markRevealed g i j) ⟨rfl, rfl, rfl, rfl⟩
          (fun x d _ hx => by
            obtain ⟨h1, h2, h3, h4⟩ := ih x (i + d.1) (j + d.2)
            exact ⟨h1.trans hx.1, h2.trans hx.2.1, h3.trans hx.2.2.1,
              h4.trans hx.2.2.2⟩)

theorem flaggedCells_markRevealed (g : Game) (i j : Int) :
    flaggedCells (markRevealed g i j).grid = flaggedCells g.grid := by
  rw [markRevealed_grid]
  exact gridCount_setCell_of_pres i j _ _ (fun c => rfl)

theorem flaggedCells_expandF (fuel : Nat) :
    ∀ (g : Game) (i j : Int),
      flaggedCells (expandF fuel g i j).grid = flaggedCells g.grid := by
  induction fuel with
  | zero => intro g i j; rfl
  | succ n ih =>
    intro g i j
    rw [expandF_succ]
    by_cases hg : expandGuard g i j
    · rw [if_pos hg]
    · rw [if_neg hg]
      by_cases hc : count_flagged_neighbors (markRevealed g i j).grid i j ≠
          count_bomb_neighbors (markRevealed g i j).grid i j
      · rw [if_pos hc]; exact flaggedCells_markRevealed g i j
      · rw [if_neg hc]
        exact foldl_invariant _
          (fun acc : Game => flaggedCells acc.grid = flaggedCells g.grid)
          dir4 (markRevealed g i j) (flaggedCells_markRevealed g i j)
          (fun x d _ hx => (ih x (i + d.1) (j + d.2)).trans hx)

/-- Decomposition of the expand guard into its four reasons. -/
theorem expandGuard_false_iff (g : Game) (i j : Int) :
    expandGuard g i j = false ↔
      inBounds g.grid i j ∧ (cellAt g.grid i j).type ≠ CellType.BOMB ∧
      (cellAt g.grid i j).is_revealed = false ∧
      (cellAt g.grid i j).is_flagged = false := by
  unfold expandGuard inBounds
  cases h : (cellAt g.grid i j).type <;>
    simp [h, Bool.or_eq_false_iff, and_assoc]

theorem revealedCells_markRevealed {g : Game} {i j : Int} (hr : rect g.grid)
    (hg : expandGuard g i j = false) :
    revealedCells (markRevealed g i j).grid = revealedCells g.grid + 1 := by
  obtain ⟨hin, _, hunrev, _⟩ := (expandGuard_false_iff g i j).mp hg
  have := gridCount_setCell (g := g.grid) (i := i) (j := j)
    (fun c => c.is_revealed) (fun c => { c with is_revealed := true }) hr hin
  simp only [] at this
  simp only [hunrev] at this
  simp at this
  rw [markRevealed_grid]
  unfold revealedCells
  omega

theorem unrev_markRevealed {g : Game} {i j : Int} (hr : rect g.grid)
    (hg : expandGuard g i j = false) :
    unrevealedCount (markRevealed g i j).grid + 1 = unrevealedCount g.grid := by
  obtain ⟨hin, _, hunrev, _⟩ := (expandGuard_false_iff g i j).mp hg
  have := gridCount_setCell (g := g.grid) (i := i) (j := j)
    (fun c => !c.is_revealed) (fun c => { c with is_revealed := true }) hr hin
  simp only [] at this
  simp only [hunrev] at this
  simp at this
  rw [markRevealed_grid]
  unfold unrevealedCount
  omega

/-- The core counter invariant of C2: count_revealed mirrors the number of
revealed cells (as a uint32_t). -/
def invRev (g : Game) : Prop := g.count_revealed = revealedCells g.grid % U32

instance (g : Game) : Decidable (invRev g) := by
  unfold invRev; infer_instance

theorem invRev_markRevealed {g : Game} {i j : Int} (hr : rect g.grid)
    (hg : expandGuard g i j = false) (h : invRev g) :
    invRev (markRevealed g i j) := by
  unfold invRev at h ⊢
  have hgrid := revealedCells_markRevealed hr hg
  have hcnt : (markRevealed g i j).count_revealed = (g.count_revealed + 1) % U32 := rfl
  rw [hcnt, hgrid, h]
  unfold U32
  omega

theorem invRev_expandF (fuel : Nat) :
    ∀ (g : Game) (i j : Int), rect g.grid → invRev g → invRev (expandF fuel g i j) := by
  induction fuel with
  | zero => intro g i j _ h; exact h
  | succ n ih =>
    intro g i j hr h
    rw [expandF_succ]
    by_cases hg : expandGuard g i j
    · rw [if_pos hg]; exact h
    · rw [if_neg hg]
      have hg' : expandGuard g i j = false := by simpa using hg
      have hmr : rect (markRevealed g i j).grid :=
        rect_of_shape_eq (by rw [markRevealed_grid]; exact shape_setCell _ _ _ _) hr
      have hmark := invRev_markRevealed hr hg' h
      by_cases hc : count_flagged_neighbors (markRevealed g i j).grid i j ≠
          count_bomb_neighbors (markRevealed g i j).grid i j
      · rw [if_pos hc]; exact hmark
      · rw [if_neg hc]
        exact foldl_invariant _
          (fun acc : Game => invRev acc ∧ rect acc.grid)
          dir4 (markRevealed g i j) ⟨hmark, hmr⟩
          (fun x d _ hx => ⟨ih x (i + d.1) (j + d.2) hx.2 hx.1,
            rect_expandF n x (i + d.1) (j + d.2) hx.2⟩) |>.1

/-! Fuel stabilization: any fuel beyond the number of unrevealed cells
computes the same result, which is what makes the fuel embedding faithful to
the unbounded C++ recursion and proves its termination bound. -/

theorem expandF_stab :
    ∀ (f1 : Nat), ∀ (f2 : Nat) (g : Game) (i j : Int), rect g.grid →
      unrevealedCount g.grid + 1 ≤ f1 → unrevealedCount g.grid + 1 ≤ f2 →
      expandF f1 g i j = expandF f2 g i j := by
  intro f1
  induction f1 with
  | zero => intro f2 g i j _ h1 _; omega
  | succ a ih =>
    intro f2 g i j hr h1 h2
    obtain ⟨b, rfl⟩ : ∃ b, f2 = b + 1 := ⟨f2 - 1, by omega⟩
    rw [expandF_succ, expandF_succ]
    by_cases hg : expandGuard g i j
    · rw [if_pos hg, if_pos hg]
    · rw [if_neg hg, if_neg hg]
      by_cases hc : count_flagged_neighbors (markRevealed g i j).grid i j ≠
          count_bomb_neighbors (markRevealed g i j).grid i j
      · rw [if_pos hc, if_pos hc]
      · rw [if_neg hc, if_neg hc]
        have hg' : expandGuard g i j = false := by simpa using hg
        have hmr : rect (markRevealed g i j).grid :=
          rect_of_shape_eq (by rw [markRevealed_grid]; exact shape_setCell _ _ _ _) hr
        have hum := unrev_markRevealed hr hg'
        simp only [dir4, List.foldl]
        set g1 := markRevealed g i j with hg1
        have hu1 : unrevealedCount g1.grid + 1 ≤ a := by omega
        have hu1b : unrevealedCount g1.grid + 1 ≤ b := by omega
        have e1 : expandF a g1 (i + 0) (j + 1) = expandF b g1 (i + 0) (j + 1) :=
          ih b g1 (i + 0) (j + 1) hmr hu1 hu1b
        rw [← e1]
        set s1 := expandF a g1 (i + 0) (j + 1) with hs1
        have hrs1 : rect s1.grid := rect_expandF a g1 (i + 0) (j + 1) hmr
        have hus1 : unrevealedCount s1.grid ≤ unrevealedCount g1.grid :=
          unrev_expandF_le a g1 (i + 0) (j + 1)
        have e2 : expandF a s1 (i + 1) (j + 0) = expandF b s1 (i + 1) (j + 0) :=
          ih b s1 (i + 1) (j + 0) hrs1 (by omega) (by omega)
        rw [← e2]
        set s2 := expandF a s1 (i + 1) (j + 0) with hs2
        have hrs2 : rect s2.grid := rect_expandF a s1 (i + 1) (j + 0) hrs1
        have hus2 : unrevealedCount s2.grid ≤ unrevealedCount s1.grid :=
          unrev_expandF_le a s1 (i + 1) (j + 0)
        have e3 : expandF a s2 (i + 0) (j + -1) = expandF b s2 (i + 0) (j + -1) :=
          ih b s2 (i + 0) (j + -1) hrs2 (by omega) (by omega)
        rw [← e3]
        set s3 := expandF a s2 (i + 0) (j + -1) with hs3
        have hrs3 : rect s3.grid := rect_expandF a s2 (i + 0) (j + -1) hrs2
        have hus3 : unrevealedCount s3.grid ≤ unrevealedCount s2.grid :=
          unrev_expandF_le a s2 (i + 0) (j + -1)
        exact ih b s3 (i + -1) (j + 0) hrs3 (by omega) (by omega)

/-! Helpers for the flood-fill completeness argument. -/

theorem rect_markRevealed (g : Game) (i j : Int) (hr : rect g.grid) :
    rect (markRevealed g i j).grid :=
  rect_of_shape_eq (by rw [markRevealed_grid]; exact shape_setCell _ _ _ _) hr

theorem inBounds_of_staticEq {g s : Grid} (h : staticEq g s) (a b : Int) :
    inBounds s a b ↔ inBounds g a b := by
  unfold inBounds; rw [outside_eq_of_shape h.1]

/-- For a cell that is in bounds, not a bomb and not flagged, the expand
guard is exactly its revealed bit. -/
theorem expandGuard_eq_rev (s : Game) (a b : Int) (hin : inBounds s.grid a b)
    (ht : (cellAt s.grid a b).type ≠ CellType.BOMB)
    (hfl : (cellAt s.grid a b).is_flagged = false) :
    expandGuard s a b = (cellAt s.grid a b).is_revealed := by
  have hemp : (cellAt s.grid a b).type = CellType.EMPTY := by
    cases h : (cellAt s.grid a b).type
    · rfl
    · exact absurd h ht
  unfold inBounds at hin
  simp [expandGuard, hin, hfl, hemp]

/-- A cell revealed by marking (i, j) that was not revealed before is the
cell (i, j) itself. -/
theorem markRevealed_newly {g : Game} {i j p q : Int} (hg : expandGuard g i j = false)
    (hp : inBounds g.grid p q)
    (hE : (cellAt (markRevealed g i j).grid p q).is_revealed = true)
    (hgrev : (cellAt g.grid p q).is_revealed = false) : p = i ∧ q = j := by
  obtain ⟨hin, _, _, _⟩ := (expandGuard_false_iff g i j).mp hg
  rw [markRevealed_grid, cellAt_setCell] at hE
  by_cases hcase : p.toNat = i.toNat ∧ i.toNat < g.grid.length ∧ q.toNat = j.toNat ∧
      j.toNat < (g.grid.getD i.toNat []).length
  · obtain ⟨hp0, hq0, _, _⟩ := (inBounds_iff _ p q).mp hp
    obtain ⟨hi0, hj0, _, _⟩ := (inBounds_iff _ i j).mp hin
    exact ⟨int_eq_of_toNat_eq hi0 hp0 hcase.1, int_eq_of_toNat_eq hj0 hq0 hcase.2.2.1⟩
  · rw [if_neg hcase] at hE
    rw [hE] at hgrev
    exact absurd hgrev (by simp)

/-- The saturation property of the flood fill: with sufficient fuel, the
start cell ends revealed whenever it is enterable, and every cell the call
newly revealed whose flagged and bomb neighbor counts agree has each of its
in-bounds, non-bomb, unflagged orthogonal neighbors revealed in the final
state.  This is the inductive heart of the cascade-completeness proof. -/
theorem expandF_sat (fuel : Nat) :
    ∀ (g : Game) (i j : Int), rect g.grid → unrevealedCount g.grid + 1 ≤ fuel →
      ((expandGuard g i j = false →
        (cellAt (expandF fuel g i j).grid i j).is_revealed = true) ∧
      (∀ p q : Int, inBounds g.grid p q →
        (cellAt (expandF fuel g i j).grid p q).is_revealed = true →
        (cellAt g.grid p q).is_revealed = false →
        count_flagged_neighbors g.grid p q = count_bomb_neighbors g.grid p q →
        ∀ d ∈ dir4,
          inBounds g.grid (p + d.1) (q + d.2) →
          (cellAt g.grid (p + d.1) (q + d.2)).type ≠ CellType.BOMB →
          (cellAt g.grid (p + d.1) (q + d.2)).is_flagged = false →
          (cellAt (expandF fuel g i j).grid (p + d.1) (q + d.2)).is_revealed = true)) := by
  induction fuel with
  | zero => intro g i j _ hf; omega
  | succ n ih =>
    intro g i j hr hf
    by_cases hg : expandGuard g i j
    · rw [expandF_succ, if_pos hg]
      refine ⟨fun hfalse => ?_, fun p q _ h1 h2 _ => ?_⟩
      · rw [hfalse] at hg; exact absurd hg (by simp)
      · rw [h1] at h2; exact absurd h2 (by simp)
    · have hg' : expandGuard g i j = false := by simpa using hg
      obtain ⟨hin, htype, hrev, hflag⟩ := (expandGuard_false_iff g i j).mp hg'
      have hst0 : staticEq g.grid (markRevealed g i j).grid := staticEq_markRevealed g i j
      have hr0 : rect (markRevealed g i j).grid := rect_markRevealed g i j hr
      have hum := unrev_markRevealed hr hg'
      have selfrev : (cellAt (markRevealed g i j).grid i j).is_revealed = true := by
        rw [markRevealed_grid, cellAt_setCell_self hr hin]
      have hcfl := count_flagged_neighbors_congr hst0 i j
      have hcbm := count_bomb_neighbors_congr hst0 i j
      by_cases hc : count_flagged_neighbors (markRevealed g i j).grid i j ≠
          count_bomb_neighbors (markRevealed g i j).grid i j
      · rw [expandF_succ, if_neg hg, if_pos hc]
        refine ⟨fun _ => selfrev, fun p q hpq hE hgrev hcnt d hd _ _ _ => ?_⟩
        obtain ⟨rfl, rfl⟩ := markRevealed_newly hg' hpq hE hgrev
        rw [hcfl, hcbm, hcnt] at hc
        exact absurd rfl hc
      · have hceq : count_flagged_neighbors g.grid i j = count_bomb_neighbors g.grid i j := by
          rw [← hcfl, ← hcbm]; exact not_not.mp hc
        rw [expandF_succ, if_neg hg, if_neg hc]
        simp only [dir4, List.foldl]
        set s0 := markRevealed g i j with hs0
        set s1 := expandF n s0 (i + 0) (j + 1) with hs1
        set s2 := expandF n s1 (i + 1) (j + 0) with hs2
        set s3 := expandF n s2 (i + 0) (j + -1) with hs3
        set s4 := expandF n s3 (i + -1) (j + 0) with hs4
        have hr1 : rect s1.grid := rect_expandF n s0 _ _ hr0
        have hr2 : rect s2.grid := rect_expandF n s1 _ _ hr1
        have hr3 : rect s3.grid := rect_expandF n s2 _ _ hr2
        have hu0 : unrevealedCount s0.grid + 1 ≤ n := by omega
        have hu1 : unrevealedCount s1.grid + 1 ≤ n := by
          have h := unrev_expandF_le n s0 (i + 0) (j + 1); rw [← hs1] at h; omega
        have hu2 : unrevealedCount s2.grid + 1 ≤ n := by
          have h := unrev_expandF_le n s1 (i + 1) (j + 0); rw [← hs2] at h; omega
        have hu3 : unrevealedCount s3.grid + 1 ≤ n := by
          have h := unrev_expandF_le n s2 (i + 0) (j + -1); rw [← hs3] at h; omega
        have hst1 : staticEq g.grid s1.grid :=
          staticEq_trans hst0 (staticEq_expandF n s0 _ _)
        have hst2 : staticEq g.grid s2.grid :=
          staticEq_trans hst1 (staticEq_expandF n s1 _ _)
        have hst3 : staticEq g.grid s3.grid :=
          staticEq_trans hst2 (staticEq_expandF n s2 _ _)
        have mono4 : ∀ x y : Int, (cellAt s3.grid x y).is_revealed = true →
            (cellAt s4.grid x y).is_revealed = true := fun x y h =>
          expandF_mono n s3 _ _ x y h
        have mono3 : ∀ x y : Int, (cellAt s2.grid x y).is_revealed = true →
            (cellAt s4.grid x y).is_revealed = true := fun x y h =>
          mono4 x y (expandF_mono n s2 _ _ x y h)
        have mono2 : ∀ x y : Int, (cellAt s1.grid x y).is_revealed = true →
            (cellAt s4.grid x y).is_revealed = true := fun x y h =>
          mono3 x y (expandF_mono n s1 _ _ x y h)
        have mono1 : ∀ x y : Int, (cellAt s0.grid x y).is_revealed = true →
            (cellAt s4.grid x y).is_revealed = true := fun x y h =>
          mono2 x y (expandF_mono n s0 _ _ x y h)
        -- a statically enterable target of one of the four calls ends revealed
        -- after that call
        have covers : ∀ (s : Game) (a b : Int), rect s.grid →
            unrevealedCount s.grid + 1 ≤ n → staticEq g.grid s.grid →
            inBounds g.grid a b → (cellAt g.grid a b).type ≠ CellType.BOMB →
            (cellAt g.grid a b).is_flagged = false →
            (cellAt (expandF n s a b).grid a b).is_revealed = true := by
          intro s a b hrs hus hsts hinb htb hfb
          have hinb' : inBounds s.grid a b := (inBounds_of_staticEq hsts a b).mpr hinb
          have htb' : (cellAt s.grid a b).type ≠ CellType.BOMB := by
            rw [(hsts.2 a b).1]; exact htb
          have hfb' : (cellAt s.grid a b).is_flagged = false := by
            rw [(hsts.2 a b).2]; exact hfb
          have hgr := expandGuard_eq_rev s a b hinb' htb' hfb'
          cases hrevb : (cellAt s.grid a b).is_revealed
          · exact (ih s a b hrs hus).1 (by rw [hgr, hrevb])
          · exact expandF_mono n s a b a b hrevb
        constructor
        · intro _
          exact mono1 i j selfrev
        · intro p q hpq hE4 hgrev hcnt d hd hnbin hnbty hnbfl
          cases h0 : (cellAt s0.grid p q).is_revealed
          · -- (p, q) was revealed by one of the four recursive calls; use the
            -- induction hypothesis at the first call that revealed it.
            have transfer : ∀ (s : Game), staticEq g.grid s.grid → rect s.grid →
                unrevealedCount s.grid + 1 ≤ n →
                ∀ (a b : Int), (cellAt (expandF n s a b).grid p q).is_revealed = true →
                (cellAt s.grid p q).is_revealed = false →
                (cellAt (expandF n s a b).grid (p + d.1) (q + d.2)).is_revealed = true := by
              intro s hsts hrs hus a b hafter hbefore
              refine (ih s a b hrs hus).2 p q
                ((inBounds_of_staticEq hsts p q).mpr hpq) hafter hbefore ?_ d hd
                ((inBounds_of_staticEq hsts _ _).mpr hnbin) ?_ ?_
              · rw [count_flagged_neighbors_congr hsts,
                  count_bomb_neighbors_congr hsts]; exact hcnt
              · rw [(hsts.2 _ _).1]; exact hnbty
              · rw [(hsts.2 _ _).2]; exact hnbfl
            cases h1 : (cellAt s1.grid p q).is_revealed
            · cases h2 : (cellAt s2.grid p q).is_revealed
              · cases h3 : (cellAt s3.grid p q).is_revealed
                · exact transfer s3 hst3 hr3 hu3 (i + -1) (j + 0) hE4 h3
                · exact mono4 _ _ (transfer s2 hst2 hr2 hu2 (i + 0) (j + -1) h3 h2)
              · exact mono3 _ _ (transfer s1 hst1 hr1 hu1 (i + 1) (j + 0) h2 h1)
            · exact mono2 _ _ (transfer s0 hst0 hr0 hu0 (i + 0) (j + 1) h1 h0)
          · -- (p, q) was revealed by the marking itself, so (p, q) = (i, j)
            -- and the four calls are exactly at its orthogonal neighbors.
            obtain ⟨rfl, rfl⟩ := markRevealed_newly hg' hpq h0 hgrev
            fin_cases hd
            · exact mono2 _ _ (covers s0 (p + 0) (q + 1) hr0 hu0 hst0 hnbin hnbty hnbfl)
            · exact mono3 _ _ (covers s1 (p + 1) (q + 0) hr1 hu1 hst1 hnbin hnbty hnbfl)
            · exact mono4 _ _ (covers s2 (p + 0) (q + -1) hr2 hu2 hst2 hnbin hnbty hnbfl)
            · exact covers s3 (p + -1) (q + 0) hr3 hu3 hst3 hnbin hnbty hnbfl

/-! The expand wrapper: relation to expandF at any sufficient fuel, and its
behavioral properties. -/

theorem expandF_eq_expand (fuel : Nat) (g : Game) (i j : Int) (hr : rect g.grid)
    (hf : unrevealedCount g.grid + 1 <= fuel) :
    expandF fuel g i j = expand g i j :=
  expandF_stab fuel (unrevealedCount g.grid + 1) g i j hr hf le_rfl

theorem rect_expand (g : Game) (i j : Int) (hr : rect g.grid) :
    rect (expand g i j).grid :=
  rect_expandF _ g i j hr

theorem staticEq_expand (g : Game) (i j : Int) :
    staticEq g.grid (expand g i j).grid :=
  staticEq_expandF _ g i j

theorem expand_mono (g : Game) (i j p q : Int)
    (h : (cellAt g.grid p q).is_revealed = true) :
    (cellAt (expand g i j).grid p q).is_revealed = true :=
  expandF_mono _ g i j p q h

theorem expand_bomb_unrevealed (g : Game) (i j p q : Int)
    (hb : (cellAt g.grid p q).type = CellType.BOMB) :
    (cellAt (expand g i j).grid p q).is_revealed = (cellAt g.grid p q).is_revealed :=
  expandF_bomb_unrevealed _ g i j p q hb

theorem expand_invRev (g : Game) (i j : Int) (hr : rect g.grid) (h : invRev g) :
    invRev (expand g i j) :=
  invRev_expandF _ g i j hr h

theorem expand_fields (g : Game) (i j : Int) :
    (expand g i j).count_flagged = g.count_flagged /\
    (expand g i j).count_bombs = g.count_bombs /\
    (expand g i j).state = g.state /\
    (expand g i j).first_move = g.first_move :=
  expandF_fields _ g i j

theorem flaggedCells_expand (g : Game) (i j : Int) :
    flaggedCells (expand g i j).grid = flaggedCells g.grid :=
  flaggedCells_expandF _ g i j

/-! Fresh boards (no revealed and no flagged cells) and 4-connected regions,
used to state cascade completeness. -/

/-- Every cell of the grid has both player bits clear, as after restart. -/
def freshBoard (g : Grid) : Prop :=
  ∀ row ∈ g, ∀ c ∈ row, c.is_revealed = false ∧ c.is_flagged = false

instance (g : Grid) : Decidable (freshBoard g) := by
  unfold freshBoard; infer_instance

theorem freshBoard_cellAt {g : Grid} (h : freshBoard g) (p q : Int) :
    (cellAt g p q).is_revealed = false /\ (cellAt g p q).is_flagged = false := by
  unfold cellAt
  by_cases hp : p.toNat < g.length
  · have hrow : g.getD p.toNat [] ∈ g := getD_mem_of_lt g p.toNat [] hp
    by_cases hq : q.toNat < (g.getD p.toNat []).length
    · exact h _ hrow _ (getD_mem_of_lt _ q.toNat defaultCell hq)
    · rw [List.getD_eq_default _ defaultCell (by omega)]
      exact ⟨rfl, rfl⟩
  · rw [List.getD_eq_default g [] (by omega)]
    exact ⟨rfl, rfl⟩

theorem count_flagged_neighbors_fresh {g : Grid} (h : freshBoard g) (i j : Int) :
    count_flagged_neighbors g i j = 0 := by
  unfold count_flagged_neighbors count_neighbors
  by_cases hout : outside g i j
  · rw [if_pos hout]
  · rw [if_neg hout]
    rw [List.filter_eq_nil_iff.mpr ?_]
    · rfl
    · intro d _
      simp [(freshBoard_cellAt h (i + d.1) (j + d.2)).2]

/-- Orthogonal adjacency through one of the four direction offsets. -/
def adj4 (a b : Int × Int) : Prop :=
  ∃ d ∈ dir4, b = (a.1 + d.1, a.2 + d.2)

instance (a b : Int × Int) : Decidable (adj4 a b) := by
  unfold adj4; infer_instance

/-- A 4-connected chain inside the cell set R, from a start cell to an end
cell. -/
inductive Path4 (R : List (Int × Int)) : (Int × Int) → (Int × Int) → Prop
  | refl (a : Int × Int) (ha : a ∈ R) : Path4 R a a
  | step (a b c : Int × Int) (hp : Path4 R a b) (hadj : adj4 b c) (hc : c ∈ R) :
      Path4 R a c

theorem Path4.mem_right {R : List (Int × Int)} {a b : Int × Int}
    (h : Path4 R a b) : b ∈ R := by
  cases h with
  | refl ha => exact ha
  | step _ _ _ _ hc => exact hc

/-- Completeness of the cascade on a fresh board: expanding at any cell of a
4-connected region of in-bounds, empty, zero-bomb-neighbor cells reveals
every cell of the region. -/
theorem expand_region_complete (g : Game) (R : List (Int × Int)) (s t : Int × Int)
    (hr : rect g.grid) (hfresh : freshBoard g.grid)
    (hreg : ∀ c ∈ R, inBounds g.grid c.1 c.2 ∧
      (cellAt g.grid c.1 c.2).type = CellType.EMPTY ∧
      count_bomb_neighbors g.grid c.1 c.2 = 0)
    (hpath : Path4 R s t) :
    (cellAt (expand g s.1 s.2).grid t.1 t.2).is_revealed = true := by
  induction hpath with
  | refl ha =>
    have hsat := expandF_sat (unrevealedCount g.grid + 1) g s.1 s.2 hr le_rfl
    obtain ⟨hin, hty, hbn⟩ := hreg s ha
    refine hsat.1 ((expandGuard_false_iff g s.1 s.2).mpr ?_)
    refine ⟨hin, ?_, ?_, ?_⟩
    · rw [hty]; intro hcontra; cases hcontra
    · exact (freshBoard_cellAt hfresh s.1 s.2).1
    · exact (freshBoard_cellAt hfresh s.1 s.2).2
  | step b c hp hadj hc ih =>
    have hsat := expandF_sat (unrevealedCount g.grid + 1) g s.1 s.2 hr le_rfl
    have hb : b ∈ R := hp.mem_right
    obtain ⟨hinb, htyb, hbnb⟩ := hreg b hb
    obtain ⟨hinc, htyc, hbnc⟩ := hreg c hc
    obtain ⟨d, hd, rfl⟩ := hadj
    refine hsat.2 b.1 b.2 hinb ih (freshBoard_cellAt hfresh b.1 b.2).1 ?_ d hd hinc ?_ ?_
    · rw [count_flagged_neighbors_fresh hfresh, hbnb]
    · rw [htyc]; intro hcontra; cases hcontra
    · exact (freshBoard_cellAt hfresh (b.1 + d.1) (b.2 + d.2)).2

/-! Counting on freshly built and restarted grids, and path lemmas for the
two engine entry points. -/

theorem gridCount_map_zero (g : Grid) (p : Cell → Bool) (f : Cell → Cell)
    (hf : ∀ c, p (f c) = false) :
    gridCount p (g.map (fun row => row.map f)) = 0 := by
  unfold gridCount
  rw [List.map_map]
  apply List.sum_eq_zero
  intro x hx
  obtain ⟨row, hrow, rfl⟩ := List.mem_map.mp hx
  simp only [Function.comp_apply]
  rw [List.countP_map, List.countP_eq_zero]
  intro c hc
  simp [Function.comp_apply, hf]

theorem gridCount_range_zero (m n : Nat) (p : Cell → Bool) (mk : Nat → Nat → Cell)
    (hmk : ∀ i j, p (mk i j) = false) :
    gridCount p ((List.range m).map (fun i => (List.range n).map (fun j => mk i j))) = 0 := by
  unfold gridCount
  rw [List.map_map]
  apply List.sum_eq_zero
  intro x hx
  obtain ⟨i, hi, rfl⟩ := List.mem_map.mp hx
  simp only [Function.comp_apply]
  rw [List.countP_map, List.countP_eq_zero]
  intro c hc
  simp [Function.comp_apply, hmk]

/-- The core counter invariant of C3: count_flagged mirrors the number of
flagged cells (as a uint32_t). -/
def invFlag (g : Game) : Prop := g.count_flagged = flaggedCells g.grid % U32

instance (g : Game) : Decidable (invFlag g) := by
  unfold invFlag; infer_instance

theorem restart_grid (g : Game) : g.restart.grid =
    g.grid.map (fun row => row.map
      (fun c => { c with is_flagged := false, is_revealed := false })) := rfl

theorem invRev_restart (g : Game) : invRev g.restart := by
  unfold invRev
  rw [restart_grid]
  unfold revealedCells
  rw [gridCount_map_zero _ _ _ (fun c => rfl)]
  rfl

theorem invFlag_restart (g : Game) : invFlag g.restart := by
  unfold invFlag
  rw [restart_grid]
  unfold flaggedCells
  rw [gridCount_map_zero _ _ _ (fun c => rfl)]
  rfl

theorem mkGame_grid (m n : Nat) (bomb : Nat → Nat → Bool) (fm : Bool) :
    (mkGame m n bomb fm).grid = (List.range m).map (fun i => (List.range n).map
      (fun j => ⟨if bomb i j then CellType.BOMB else CellType.EMPTY, false, false⟩)) := rfl

theorem invRev_mkGame (m n : Nat) (bomb : Nat → Nat → Bool) (fm : Bool) :
    invRev (mkGame m n bomb fm) := by
  unfold invRev
  rw [mkGame_grid]
  unfold revealedCells
  rw [gridCount_range_zero _ _ _ _ (fun i j => rfl)]
  rfl

theorem invFlag_mkGame (m n : Nat) (bomb : Nat → Nat → Bool) (fm : Bool) :
    invFlag (mkGame m n bomb fm) := by
  unfold invFlag
  rw [mkGame_grid]
  unfold flaggedCells
  rw [gridCount_range_zero _ _ _ _ (fun i j => rfl)]
  rfl

theorem gridCount_pos {g : Grid} {i j : Int} (p : Cell → Bool) (hr : rect g)
    (hin : inBounds g i j) (hp : p (cellAt g i j) = true) : 1 ≤ gridCount p g := by
  obtain ⟨h1, h2, _, _⟩ := validIdx_of_inBounds hr hin
  have hrow : g.getD i.toNat [] ∈ g := getD_mem_of_lt g i.toNat [] h1
  have hcell : cellAt g i j ∈ g.getD i.toNat [] :=
    getD_mem_of_lt _ j.toNat defaultCell h2
  have hcp : 1 ≤ (g.getD i.toNat []).countP p := by
    have : 0 < (g.getD i.toNat []).countP p :=
      List.countP_pos_iff.mpr ⟨cellAt g i j, hcell, hp⟩
    omega
  have hmem : (g.getD i.toNat []).countP p ∈ g.map (fun row => row.countP p) :=
    List.mem_map_of_mem _ hrow
  have := List.le_sum_of_mem hmem
  unfold gridCount
  omega

theorem not_outside_of_inBounds {g : Grid} {i j : Int} (h : inBounds g i j) :
    ¬(outside g i j = true) := by
  unfold inBounds at h
  rw [h]
  simp

theorem try_set_flag_success {g : Game} {i j : Int} (v : Bool)
    (hin : inBounds g.grid i j) (hrev : (cellAt g.grid i j).is_revealed = false) :
    try_set_flag g i j v = (PlayerMove.Success,
      { g with
        count_flagged := (g.count_flagged + (if v then 1 else U32 - 1)) % U32
        grid := setCell g.grid i j (fun c => { c with is_flagged := v }) }) := by
  unfold try_set_flag
  rw [if_neg (not_outside_of_inBounds hin), if_neg (by rw [hrev]; simp)]

theorem try_reveal_out {g : Game} {i j : Int} (h : outside g.grid i j = true) :
    try_reveal g i j = (PlayerMove.OutBounds, g) := by
  unfold try_reveal
  rw [if_pos h]

theorem try_reveal_flagged {g : Game} {i j : Int} (hin : inBounds g.grid i j)
    (h : (cellAt g.grid i j).is_flagged = true) :
    try_reveal g i j = (PlayerMove.NA, g) := by
  unfold try_reveal
  rw [if_neg (not_outside_of_inBounds hin), if_pos h]

theorem try_reveal_bomb {g : Game} {i j : Int} (hin : inBounds g.grid i j)
    (hfl : (cellAt g.grid i j).is_flagged = false)
    (hb : (cellAt g.grid i j).type = CellType.BOMB) :
    try_reveal g i j = (PlayerMove.LosingMove,
      { g with grid := setCell g.grid i j (fun c => { c with is_revealed := true }) }) := by
  unfold try_reveal
  rw [if_neg (not_outside_of_inBounds hin), if_neg (by rw [hfl]; simp),
    if_pos (by rw [hb]; rfl)]

theorem try_reveal_success {g : Game} {i j : Int} (hin : inBounds g.grid i j)
    (hfl : (cellAt g.grid i j).is_flagged = false)
    (hb : (cellAt g.grid i j).type ≠ CellType.BOMB)
    (hrev : (cellAt g.grid i j).is_revealed = false) :
    try_reveal g i j = (PlayerMove.Success,
      { expand g i j with
        grid := setCell (expand g i j).grid i j
          (fun c => { c with is_revealed := true }) }) := by
  unfold try_reveal
  rw [if_neg (not_outside_of_inBounds hin), if_neg (by rw [hfl]; simp),
    if_neg (by simp [hb]), if_pos (by rw [hrev]; rfl)]

theorem try_reveal_chord_stop {g : Game} {i j : Int} (hin : inBounds g.grid i j)
    (hfl : (cellAt g.grid i j).is_flagged = false)
    (hb : (cellAt g.grid i j).type ≠ CellType.BOMB)
    (hrev : (cellAt g.grid i j).is_revealed = true)
    (hc : count_flagged_neighbors g.grid i j ≠ count_bomb_neighbors g.grid i j) :
    try_reveal g i j = (PlayerMove.Success, g) := by
  unfold try_reveal
  rw [if_neg (not_outside_of_inBounds hin), if_neg (by rw [hfl]; simp),
    if_neg (by simp [hb]), if_neg (by rw [hrev]; simp), if_pos hc]

theorem try_reveal_chord {g : Game} {i j : Int} (hin : inBounds g.grid i j)
    (hfl : (cellAt g.grid i j).is_flagged = false)
    (hb : (cellAt g.grid i j).type ≠ CellType.BOMB)
    (hrev : (cellAt g.grid i j).is_revealed = true)
    (hc : count_flagged_neighbors g.grid i j = count_bomb_neighbors g.grid i j) :
    try_reveal g i j = (PlayerMove.Success,
      dir8.foldl (fun acc d => expand acc (i + d.1) (j + d.2)) g) := by
  unfold try_reveal
  rw [if_neg (not_outside_of_inBounds hin), if_neg (by rw [hfl]; simp),
    if_neg (by simp [hb]), if_neg (by rw [hrev]; simp), if_neg (by simp [hc])]

/-! Counter invariants across try_set_flag and try_reveal. -/

theorem invRev_try_set_flag (g : Game) (i j : Int) (v : Bool) (h : invRev g) :
    invRev (try_set_flag g i j v).2 := by
  unfold try_set_flag
  by_cases hout : outside g.grid i j = true
  · rw [if_pos hout]; exact h
  · rw [if_neg hout]
    by_cases hrev : (cellAt g.grid i j).is_revealed = true
    · rw [if_pos hrev]; exact h
    · rw [if_neg hrev]
      unfold invRev at h ⊢
      dsimp only
      unfold revealedCells at h ⊢
      rw [gridCount_setCell_of_pres i j (fun c => c.is_revealed)
        (fun c => { c with is_flagged := v }) (fun c => rfl)]
      exact h

theorem invFlag_try_set_flag_changed {g : Game} {i j : Int} {v : Bool}
    (hr : rect g.grid) (hin : inBounds g.grid i j)
    (hrev : (cellAt g.grid i j).is_revealed = false)
    (hch : (cellAt g.grid i j).is_flagged ≠ v) (h : invFlag g) :
    invFlag (try_set_flag g i j v).2 := by
  rw [try_set_flag_success v hin hrev]
  unfold invFlag at h ⊢
  dsimp only
  have hcnt := gridCount_setCell (g := g.grid) (i := i) (j := j)
    (fun c => c.is_flagged) (fun c => { c with is_flagged := v }) hr hin
  simp only [] at hcnt
  unfold flaggedCells at h ⊢
  cases v with
  | true =>
    have hfl : (cellAt g.grid i j).is_flagged = false := by
      cases hfv : (cellAt g.grid i j).is_flagged
      · rfl
      · exact absurd hfv hch
    simp only [hfl] at hcnt
    simp at hcnt
    rw [hcnt, h]
    simp only [if_true]
    unfold U32
    omega
  | false =>
    have hfl : (cellAt g.grid i j).is_flagged = true := by
      cases hfv : (cellAt g.grid i j).is_flagged
      · exact absurd hfv hch
      · rfl
    simp only [hfl] at hcnt
    simp at hcnt
    have hpos : 1 ≤ gridCount (fun c => c.is_flagged) g.grid :=
      gridCount_pos _ hr hin hfl
    have hgoal : gridCount (fun c => c.is_flagged)
        (setCell g.grid i j fun c => { c with is_flagged := false })
        = gridCount (fun c => c.is_flagged) g.grid - 1 := by omega
    rw [hgoal, h]
    simp only [Bool.false_eq_true, if_false]
    unfold U32
    omega

theorem try_reveal_flags (g : Game) (i j : Int) :
    (try_reveal g i j).2.count_flagged = g.count_flagged ∧
    flaggedCells (try_reveal g i j).2.grid = flaggedCells g.grid := by
  by_cases hout : outside g.grid i j = true
  · rw [try_reveal_out hout]; exact ⟨rfl, rfl⟩
  · have hin : inBounds g.grid i j := by unfold inBounds; simpa using hout
    by_cases hfl : (cellAt g.grid i j).is_flagged = true
    · rw [try_reveal_flagged hin hfl]; exact ⟨rfl, rfl⟩
    · have hfl' : (cellAt g.grid i j).is_flagged = false := by simpa using hfl
      by_cases hb : (cellAt g.grid i j).type = CellType.BOMB
      · rw [try_reveal_bomb hin hfl' hb]
        refine ⟨rfl, ?_⟩
        dsimp only
        unfold flaggedCells
        exact gridCount_setCell_of_pres i j (fun c => c.is_flagged)
          (fun c => { c with is_revealed := true }) (fun c => rfl)
      · by_cases hrev : (cellAt g.grid i j).is_revealed = true
        · by_cases hc : count_flagged_neighbors g.grid i j =
              count_bomb_neighbors g.grid i j
          · rw [try_reveal_chord hin hfl' hb hrev hc]
            refine (foldl_invariant _
              (fun acc : Game => acc.count_flagged = g.count_flagged ∧
                flaggedCells acc.grid = flaggedCells g.grid)
              dir8 g ⟨rfl, rfl⟩ ?_)
            intro x d _ hx
            exact ⟨((expand_fields x (i + d.1) (j + d.2)).1).trans hx.1,
              (flaggedCells_expand x (i + d.1) (j + d.2)).trans hx.2⟩
          · rw [try_reveal_chord_stop hin hfl' hb hrev (by simpa using hc)]
            exact ⟨rfl, rfl⟩
        · have hrev' : (cellAt g.grid i j).is_revealed = false := by simpa using hrev
          rw [try_reveal_success hin hfl' hb hrev']
          refine ⟨(expand_fields g i j).1, ?_⟩
          dsimp only
          unfold flaggedCells
          rw [gridCount_setCell_of_pres i j (fun c => c.is_flagged)
            (fun c => { c with is_revealed := true }) (fun c => rfl)]
          exact flaggedCells_expand g i j

theorem invFlag_try_reveal (g : Game) (i j : Int) (h : invFlag g) :
    invFlag (try_reveal g i j).2 := by
  unfold invFlag at h ⊢
  rw [(try_reveal_flags g i j).1, (try_reveal_flags g i j).2]
  exact h

theorem invRev_try_reveal_nonloss (g : Game) (i j : Int) (hr : rect g.grid)
    (h : invRev g) (hnl : (try_reveal g i j).1 ≠ PlayerMove.LosingMove) :
    invRev (try_reveal g i j).2 := by
  by_cases hout : outside g.grid i j = true
  · rw [try_reveal_out hout]; exact h
  · have hin : inBounds g.grid i j := by unfold inBounds; simpa using hout
    by_cases hfl : (cellAt g.grid i j).is_flagged = true
    · rw [try_reveal_flagged hin hfl]; exact h
    · have hfl' : (cellAt g.grid i j).is_flagged = false := by simpa using hfl
      by_cases hb : (cellAt g.grid i j).type = CellType.BOMB
      · rw [try_reveal_bomb hin hfl' hb] at hnl
        exact absurd rfl hnl
      · by_cases hrev : (cellAt g.grid i j).is_revealed = true
        · by_cases hc : count_flagged_neighbors g.grid i j =
              count_bomb_neighbors g.grid i j
          · rw [try_reveal_chord hin hfl' hb hrev hc]
            refine (foldl_invariant _
              (fun acc : Game => invRev acc ∧ rect acc.grid)
              dir8 g ⟨h, hr⟩ ?_).1
            intro x d _ hx
            exact ⟨expand_invRev x (i + d.1) (j + d.2) hx.2 hx.1,
              rect_expand x (i + d.1) (j + d.2) hx.2⟩
          · rw [try_reveal_chord_stop hin hfl' hb hrev (by simpa using hc)]
            exact h
        · have hrev' : (cellAt g.grid i j).is_revealed = false := by simpa using hrev
          rw [try_reveal_success hin hfl' hb hrev']
          have hguard : expandGuard g i j = false :=
            (expandGuard_false_iff g i j).mpr ⟨hin, hb, hrev', hfl'⟩
          have hexprev : (cellAt (expand g i j).grid i j).is_revealed = true :=
            (expandF_sat (unrevealedCount g.grid + 1) g i j hr le_rfl).1 hguard
          have hre : rect (expand g i j).grid := rect_expand g i j hr
          have hine : inBounds (expand g i j).grid i j :=
            (inBounds_of_staticEq (staticEq_expand g i j) i j).mpr hin
          have hcnt := gridCount_setCell (g := (expand g i j).grid) (i := i) (j := j)
            (fun c => c.is_revealed) (fun c => { c with is_revealed := true }) hre hine
          simp only [] at hcnt
          simp only [hexprev] at hcnt
          simp at hcnt
          have hinv := expand_invRev g i j hr h
          unfold invRev at hinv ⊢
          dsimp only
          unfold revealedCells at hinv ⊢
          rw [hcnt]
          exact hinv

theorem try_reveal_loss_counts {g : Game} {i j : Int} (hr : rect g.grid)
    (hin : inBounds g.grid i j) (hfl : (cellAt g.grid i j).is_flagged = false)
    (hb : (cellAt g.grid i j).type = CellType.BOMB)
    (hrev : (cellAt g.grid i j).is_revealed = false) :
    (try_reveal g i j).1 = PlayerMove.LosingMove ∧
    revealedCells (try_reveal g i j).2.grid = revealedCells g.grid + 1 ∧
    (try_reveal g i j).2.count_revealed = g.count_revealed := by
  rw [try_reveal_bomb hin hfl hb]
  refine ⟨rfl, ?_, rfl⟩
  have hcnt := gridCount_setCell (g := g.grid) (i := i) (j := j)
    (fun c => c.is_revealed) (fun c => { c with is_revealed := true }) hr hin
  simp only [] at hcnt
  simp only [hrev] at hcnt
  simp at hcnt
  dsimp only
  unfold revealedCells
  omega

/-! Size bounds and the halt/recurse characterization of the cascade. -/

theorem sum_eq_card_mul {l : List Nat} {c : Nat} (h : ∀ x ∈ l, x = c) :
    l.sum = l.length * c := by
  induction l with
  | nil => simp
  | cons a t ih =>
    have ha : a = c := h a (by simp)
    have ht : t.sum = t.length * c := ih (fun x hx => h x (by simp [hx]))
    simp [ha, ht, Nat.succ_mul]
    omega

theorem gridCount_le_gridCells (p : Cell → Bool) (g : Grid) :
    gridCount p g ≤ gridCells g := by
  unfold gridCount gridCells
  apply List.sum_le_sum
  intro row hrow
  exact List.countP_le_length p

theorem gridCells_eq_of_rect {g : Grid} (hr : rect g) :
    gridCells g = rows g * cols g := by
  unfold gridCells rows
  rw [sum_eq_card_mul (c := cols g), List.length_map]
  intro x hx
  obtain ⟨row, hrow, rfl⟩ := List.mem_map.mp hx
  exact hr row hrow

theorem unrev_expand_le (g : Game) (i j : Int) :
    unrevealedCount (expand g i j).grid ≤ unrevealedCount g.grid :=
  unrev_expandF_le _ g i j

/-- When the neighbor counts at a newly revealed cell disagree, the cascade
stops: expand only marks that one cell. -/
theorem expand_halt {g : Game} {i j : Int} (hg : expandGuard g i j = false)
    (hc : count_flagged_neighbors g.grid i j ≠ count_bomb_neighbors g.grid i j) :
    expand g i j = markRevealed g i j := by
  have h1 := count_flagged_neighbors_congr (staticEq_markRevealed g i j) i j
  have h2 := count_bomb_neighbors_congr (staticEq_markRevealed g i j) i j
  unfold expand
  rw [expandF_succ, if_neg (by rw [hg]; simp), if_pos (by rw [h1, h2]; exact hc)]

/-- When the neighbor counts at a newly revealed cell agree, the cascade
recurses into the four orthogonal neighbors, in source order. -/
theorem expand_recurse {g : Game} {i j : Int} (hr : rect g.grid)
    (hg : expandGuard g i j = false)
    (hc : count_flagged_neighbors g.grid i j = count_bomb_neighbors g.grid i j) :
    expand g i j = dir4.foldl (fun acc d => expand acc (i + d.1) (j + d.2))
      (markRevealed g i j) := by
  have h1 := count_flagged_neighbors_congr (staticEq_markRevealed g i j) i j
  have h2 := count_bomb_neighbors_congr (staticEq_markRevealed g i j) i j
  have hum := unrev_markRevealed hr hg
  have hmr := rect_markRevealed g i j hr
  conv_lhs => unfold expand
  rw [expandF_succ, if_neg (by rw [hg]; simp),
    if_neg (by rw [h1, h2]; exact fun hne => hne hc)]
  simp only [dir4, List.foldl]
  set s0 := markRevealed g i j with hs0
  have e1 : expandF (unrevealedCount g.grid) s0 (i + 0) (j + 1)
      = expand s0 (i + 0) (j + 1) :=
    expandF_eq_expand _ s0 (i + 0) (j + 1) hmr (by omega)
  rw [e1]
  set s1 := expand s0 (i + 0) (j + 1) with hs1
  have hr1 : rect s1.grid := rect_expand s0 (i + 0) (j + 1) hmr
  have hle1 : unrevealedCount s1.grid ≤ unrevealedCount s0.grid := by
    have := unrev_expand_le s0 (i + 0) (j + 1); rw [← hs1] at this; exact this
  have e2 : expandF (unrevealedCount g.grid) s1 (i + 1) (j + 0)
      = expand s1 (i + 1) (j + 0) :=
    expandF_eq_expand _ s1 (i + 1) (j + 0) hr1 (by omega)
  rw [e2]
  set s2 := expand s1 (i + 1) (j + 0) with hs2
  have hr2 : rect s2.grid := rect_expand s1 (i + 1) (j + 0) hr1
  have hle2 : unrevealedCount s2.grid ≤ unrevealedCount s1.grid := by
    have := unrev_expand_le s1 (i + 1) (j + 0); rw [← hs2] at this; exact this
  have e3 : expandF (unrevealedCount g.grid) s2 (i + 0) (j + -1)
      = expand s2 (i + 0) (j + -1) :=
    expandF_eq_expand _ s2 (i + 0) (j + -1) hr2 (by omega)
  rw [e3]
  set s3 := expand s2 (i + 0) (j + -1) with hs3
  have hr3 : rect s3.grid := rect_expand s2 (i + 0) (j + -1) hr2
  have hle3 : unrevealedCount s3.grid ≤ unrevealedCount s2.grid := by
    have := unrev_expand_le s2 (i + 0) (j + -1); rw [← hs3] at this; exact this
  exact expandF_eq_expand _ s3 (i + -1) (j + 0) hr3 (by omega)

/-! Claim theorems. -/

/-- C1: the claim states that for every reachable state the game is won iff
revealed_count = rows*cols - mine_count iff every non-mine cell is revealed,
including after the first-move rule converts the first target to Empty.  The
code contradicts it: reveal converts a bomb cell to EMPTY without
decrementing count_bombs, so in the reachable state below every non-mine
cell is revealed yet is_won is false (the game has become unwinnable).
Trace: construct a 1x1 game whose only cell is a bomb, restart (setting
first_move), then issue the reveal command at (0, 0). -/
theorem C1_win_detection_code_bug :
    (cellAt (revealCmd ((mkGame 1 1 (fun _ _ => true) false).restart)
      [((0 : Int), (0 : Int))]).grid 0 0).type = CellType.EMPTY ∧
    (cellAt (revealCmd ((mkGame 1 1 (fun _ _ => true) false).restart)
      [((0 : Int), (0 : Int))]).grid 0 0).is_revealed = true ∧
    (revealCmd ((mkGame 1 1 (fun _ _ => true) false).restart)
      [((0 : Int), (0 : Int))]).count_revealed = 1 ∧
    (revealCmd ((mkGame 1 1 (fun _ _ => true) false).restart)
      [((0 : Int), (0 : Int))]).count_bombs = 1 ∧
    is_won (revealCmd ((mkGame 1 1 (fun _ _ => true) false).restart)
      [((0 : Int), (0 : Int))]) = false := by
  decide

/-- C4: the claim states the first reveal of a freshly constructed game can
never hit a mine, tracked by first_move.  The code contradicts it: the
constructor Game::Game never initializes first_move (only restart does), so
a fresh game may start with first_move false — modelled by the explicit
indeterminate parameter — and its first reveal then hits the mine and loses.
After restart (first_move true) the same reveal is converted to EMPTY and
the game stays active. -/
theorem C4_uninitialized_first_move_code_bug :
    (mkGame 1 1 (fun _ _ => true) false).first_move = false ∧
    (try_reveal (mkGame 1 1 (fun _ _ => true) false) 0 0).1 =
      PlayerMove.LosingMove ∧
    (revealCmd (mkGame 1 1 (fun _ _ => true) false)
      [((0 : Int), (0 : Int))]).state = GameState.OVER ∧
    (revealCmd ((mkGame 1 1 (fun _ _ => true) false).restart)
      [((0 : Int), (0 : Int))]).state = GameState.ACTIVE := by
  decide

/-- C5: the claim states mines_remaining returns max(mine_count -
flagged_count, 0), clamped at zero whenever flagged_count exceeds
mine_count.  The code computes std::max(count_bombs - count_flagged, 0u) in
uint32_t arithmetic: the subtraction wraps around and the max against 0u is
the identity, so with 0 bombs and 1 flag the printed value is 4294967295,
not 0. -/
theorem C5_bombs_left_no_clamp_code_bug :
    (try_set_flag (mkGame 1 1 (fun _ _ => false) false) 0 0 true).2.count_bombs = 0 ∧
    (try_set_flag (mkGame 1 1 (fun _ _ => false) false) 0 0 true).2.count_flagged = 1 ∧
    bombs_left (try_set_flag (mkGame 1 1 (fun _ _ => false) false) 0 0 true).2
      = 4294967295 := by
  decide

/-- C2 counterexample: the claim asserts revealed_count equals the number of
revealed cells in every reachable state, preserved by reveal_cell including
its loss path.  Reachable refutation: on a 1x3 board [Empty, Bomb, Empty],
restart, reveal (0, 0) (one cell revealed, counter 1), then reveal (0, 1):
the loss path sets the bomb cell revealed without incrementing the counter,
leaving counter 1 with 2 revealed cells. -/
theorem C2_revealed_counter_counterexample :
    (revealCmd (revealCmd ((mkGame 1 3 (fun _ j => j == 1) false).restart)
      [((0 : Int), (0 : Int))]) [((0 : Int), (1 : Int))]).count_revealed = 1 ∧
    revealedCells (revealCmd (revealCmd ((mkGame 1 3 (fun _ j => j == 1) false).restart)
      [((0 : Int), (0 : Int))]) [((0 : Int), (1 : Int))]).grid = 2 := by
  decide

/-- C2 amended: revealed_count equals the number of revealed cells (modulo
2^32, as it is a uint32_t) in the initial state, after restart, and across
set_flag, expand and every non-loss path of reveal_cell; the loss path of
reveal_cell is the exception: it sets a previously unrevealed bomb as
revealed without touching revealed_count, leaving the counter one short. -/
theorem C2_revealed_counter_amended :
    (∀ (m n : Nat) (bomb : Nat → Nat → Bool) (fm : Bool),
      invRev (mkGame m n bomb fm)) ∧
    (∀ g : Game, invRev g.restart) ∧
    (∀ (g : Game) (i j : Int) (v : Bool), invRev g → invRev (try_set_flag g i j v).2) ∧
    (∀ (g : Game) (i j : Int), rect g.grid → invRev g → invRev (expand g i j)) ∧
    (∀ (g : Game) (i j : Int), rect g.grid → invRev g →
      (try_reveal g i j).1 ≠ PlayerMove.LosingMove → invRev (try_reveal g i j).2) ∧
    (∀ (g : Game) (i j : Int), rect g.grid → inBounds g.grid i j →
      (cellAt g.grid i j).is_flagged = false →
      (cellAt g.grid i j).type = CellType.BOMB →
      (cellAt g.grid i j).is_revealed = false →
      (try_reveal g i j).1 = PlayerMove.LosingMove ∧
      revealedCells (try_reveal g i j).2.grid = revealedCells g.grid + 1 ∧
      (try_reveal g i j).2.count_revealed = g.count_revealed) := by
  refine ⟨invRev_mkGame, invRev_restart, invRev_try_set_flag, ?_, ?_, ?_⟩
  · intro g i j hr h
    exact expand_invRev g i j hr h
  · intro g i j hr h hnl
    exact invRev_try_reveal_nonloss g i j hr h hnl
  · intro g i j hr hin hfl hb hrev
    exact try_reveal_loss_counts hr hin hfl hb hrev

/-- Witness for the C2 amended theorem at a concrete input: the counter
invariant after a successful reveal on a restarted 2x2 empty board. -/
theorem C2_revealed_counter_witness :
    invRev (try_reveal ((mkGame 2 2 (fun _ _ => false) false).restart) 0 0).2 :=
  C2_revealed_counter_amended.2.2.2.2.1
    ((mkGame 2 2 (fun _ _ => false) false).restart) 0 0
    (by decide) (by decide) (by decide)

/-- C3 counterexample: the claim asserts flagged_count equals the number of
flagged cells in every reachable state, preserved even by repeated set_flag
calls with the same value.  Refutation: flagging the same unrevealed cell
twice increments the counter twice, giving flagged_count 2 with a single
flagged cell. -/
theorem C3_flagged_counter_counterexample :
    (try_set_flag (try_set_flag (mkGame 1 1 (fun _ _ => false) false) 0 0 true).2
      0 0 true).2.count_flagged = 2 ∧
    flaggedCells (try_set_flag (try_set_flag (mkGame 1 1 (fun _ _ => false) false)
      0 0 true).2 0 0 true).2.grid = 1 := by
  decide

/-- C3 amended: flagged_count equals the number of flagged cells (modulo
2^32, as it is a uint32_t) in the initial state, after restart, across
reveal_cell, across rejected set_flag calls, and across set_flag calls whose
requested value differs from the cell's current flag; a successful set_flag
whose value equals the current flag moves the counter without changing the
bit and breaks the equality (with unsigned wraparound when unflagging at
counter zero). -/
theorem C3_flagged_counter_amended :
    (∀ (m n : Nat) (bomb : Nat → Nat → Bool) (fm : Bool),
      invFlag (mkGame m n bomb fm)) ∧
    (∀ g : Game, invFlag g.restart) ∧
    (∀ (g : Game) (i j : Int) (v : Bool), rect g.grid → inBounds g.grid i j →
      (cellAt g.grid i j).is_revealed = false →
      (cellAt g.grid i j).is_flagged ≠ v →
      invFlag g → invFlag (try_set_flag g i j v).2) ∧
    (∀ (g : Game) (i j : Int) (v : Bool),
      (try_set_flag g i j v).1 ≠ PlayerMove.Success →
      invFlag g → invFlag (try_set_flag g i j v).2) ∧
    (∀ (g : Game) (i j : Int), invFlag g → invFlag (try_reveal g i j).2) := by
  refine ⟨invFlag_mkGame, invFlag_restart, ?_, ?_, ?_⟩
  · intro g i j v hr hin hrev hch h
    exact invFlag_try_set_flag_changed hr hin hrev hch h
  · intro g i j v hns h
    unfold try_set_flag at hns ⊢
    by_cases hout : outside g.grid i j = true
    · rw [if_pos hout]; exact h
    · rw [if_neg hout] at hns ⊢
      by_cases hrev : (cellAt g.grid i j).is_revealed = true
      · rw [if_pos hrev]; exact h
      · rw [if_neg hrev] at hns
        exact absurd rfl hns
  · intro g i j h
    exact invFlag_try_reveal g i j h

/-- Witness for the C3 amended theorem at a concrete input: the counter
invariant after flagging an unflagged cell of a fresh 1x1 board. -/
theorem C3_flagged_counter_witness :
    invFlag (try_set_flag (mkGame 1 1 (fun _ _ => false) false) 0 0 true).2 :=
  C3_flagged_counter_amended.2.2.1 (mkGame 1 1 (fun _ _ => false) false) 0 0 true
    (by decide) (by decide) (by decide) (by decide) (by decide)

/-- C6 counterexample: the claim asserts that expanding at any cell of a
zero-bomb-neighbor 4-connected region of non-mine cells reveals the whole
region under any flag configuration.  Refutation: on a 1x2 mine-free board
with (0, 1) flagged, both cells form such a region and expand at (0, 0)
reveals (0, 0) only — the flagged neighbor makes the counts disagree and the
flag guard blocks the cell itself. -/
theorem C6_cascade_flag_counterexample :
    adj4 ((0 : Int), (0 : Int)) ((0 : Int), (1 : Int)) ∧
    inBounds (try_set_flag (mkGame 1 2 (fun _ _ => false) false) 0 1 true).2.grid 0 0 ∧
    inBounds (try_set_flag (mkGame 1 2 (fun _ _ => false) false) 0 1 true).2.grid 0 1 ∧
    (cellAt (try_set_flag (mkGame 1 2 (fun _ _ => false) false) 0 1 true).2.grid
      0 0).type = CellType.EMPTY ∧
    (cellAt (try_set_flag (mkGame 1 2 (fun _ _ => false) false) 0 1 true).2.grid
      0 1).type = CellType.EMPTY ∧
    count_bomb_neighbors (try_set_flag (mkGame 1 2 (fun _ _ => false) false)
      0 1 true).2.grid 0 0 = 0 ∧
    count_bomb_neighbors (try_set_flag (mkGame 1 2 (fun _ _ => false) false)
      0 1 true).2.grid 0 1 = 0 ∧
    (cellAt (expand (try_set_flag (mkGame 1 2 (fun _ _ => false) false)
      0 1 true).2 0 0).grid 0 0).is_revealed = true ∧
    (cellAt (expand (try_set_flag (mkGame 1 2 (fun _ _ => false) false)
      0 1 true).2 0 0).grid 0 1).is_revealed = false := by
  decide

/-- C6 amended: on a board with no revealed and no flagged cells, expanding
at any cell of a 4-connected region of in-bounds, non-mine,
zero-bomb-neighbor cells reveals every cell of the region; under any state
and flag configuration no unrevealed mine cell is ever revealed by
expansion; and on the 2x2 mine-free board revealing (0, 0) gives
revealed_count 4 and a won game. -/
theorem C6_cascade_completeness_amended :
    (∀ (g : Game) (R : List (Int × Int)) (s t : Int × Int),
      rect g.grid → freshBoard g.grid →
      (∀ c ∈ R, inBounds g.grid c.1 c.2 ∧
        (cellAt g.grid c.1 c.2).type = CellType.EMPTY ∧
        count_bomb_neighbors g.grid c.1 c.2 = 0) →
      Path4 R s t →
      (cellAt (expand g s.1 s.2).grid t.1 t.2).is_revealed = true) ∧
    (∀ (g : Game) (i j p q : Int),
      (cellAt g.grid p q).type = CellType.BOMB →
      (cellAt g.grid p q).is_revealed = false →
      (cellAt (expand g i j).grid p q).is_revealed = false) ∧
    ((revealCmd ((mkGame 2 2 (fun _ _ => false) false).restart)
        [((0 : Int), (0 : Int))]).count_revealed = 4 ∧
      is_won (revealCmd ((mkGame 2 2 (fun _ _ => false) false).restart)
        [((0 : Int), (0 : Int))]) = true) := by
  refine ⟨fun g R s t hr hf hreg hp => expand_region_complete g R s t hr hf hreg hp,
    ?_, by decide⟩
  intro g i j p q hb hnr
  rw [expand_bomb_unrevealed g i j p q hb]
  exact hnr

/-- Witness for the C6 amended theorem at a concrete input: the cascade on
the restarted 2x2 mine-free board reveals the far corner via a 4-connected
path through the region of all four cells. -/
theorem C6_cascade_completeness_witness :
    (cellAt (expand ((mkGame 2 2 (fun _ _ => false) false).restart) 0 0).grid
      1 1).is_revealed = true :=
  C6_cascade_completeness_amended.1 ((mkGame 2 2 (fun _ _ => false) false).restart)
    [((0 : Int), (0 : Int)), ((0 : Int), (1 : Int)), ((1 : Int), (1 : Int))]
    ((0 : Int), (0 : Int)) ((1 : Int), (1 : Int))
    (by decide) (by decide) (by decide)
    (Path4.step ((0 : Int), (0 : Int)) ((0 : Int), (1 : Int)) ((1 : Int), (1 : Int))
      (Path4.step ((0 : Int), (0 : Int)) ((0 : Int), (0 : Int)) ((0 : Int), (1 : Int))
        (Path4.refl ((0 : Int), (0 : Int)) (by decide)) (by decide) (by decide))
      (by decide) (by decide))

/-- C7: after a cell is newly marked revealed, the cascade recurses into the
four orthogonal neighbors exactly when its flagged-neighbor count equals its
bomb-neighbor count, and halts at the cell when they differ; and the 1x3
scenario [Empty, Bomb, Empty]: revealing (0, 0) reveals only (0, 0) with
Success and revealed_count 1, then revealing (0, 1) yields LosingMove and
the state becomes OVER. -/
theorem C7_cascade_halt_iff_counts :
    (∀ (g : Game) (i j : Int), rect g.grid → expandGuard g i j = false →
      ((count_flagged_neighbors g.grid i j ≠ count_bomb_neighbors g.grid i j →
        expand g i j = markRevealed g i j) ∧
       (count_flagged_neighbors g.grid i j = count_bomb_neighbors g.grid i j →
        expand g i j = dir4.foldl (fun acc d => expand acc (i + d.1) (j + d.2))
          (markRevealed g i j)))) ∧
    ((try_reveal ((mkGame 1 3 (fun _ j => j == 1) false).restart) 0 0).1 =
      PlayerMove.Success ∧
     (revealCmd ((mkGame 1 3 (fun _ j => j == 1) false).restart)
       [((0 : Int), (0 : Int))]).count_revealed = 1 ∧
     (cellAt (revealCmd ((mkGame 1 3 (fun _ j => j == 1) false).restart)
       [((0 : Int), (0 : Int))]).grid 0 0).is_revealed = true ∧
     (cellAt (revealCmd ((mkGame 1 3 (fun _ j => j == 1) false).restart)
       [((0 : Int), (0 : Int))]).grid 0 1).is_revealed = false ∧
     (cellAt (revealCmd ((mkGame 1 3 (fun _ j => j == 1) false).restart)
       [((0 : Int), (0 : Int))]).grid 0 2).is_revealed = false ∧
     (try_reveal (revealCmd ((mkGame 1 3 (fun _ j => j == 1) false).restart)
       [((0 : Int), (0 : Int))]) 0 1).1 = PlayerMove.LosingMove ∧
     (revealCmd (revealCmd ((mkGame 1 3 (fun _ j => j == 1) false).restart)
       [((0 : Int), (0 : Int))]) [((0 : Int), (1 : Int))]).state =
       GameState.OVER) := by
  refine ⟨?_, by decide⟩
  intro g i j hr hg
  exact ⟨fun hc => expand_halt hg hc, fun hc => expand_recurse hr hg hc⟩

/-- Witness for the C7 theorem at a concrete input: on the 1x3 board the
counts at (0, 0) disagree (one bomb neighbor, no flags), so expand only
marks (0, 0). -/
theorem C7_cascade_halt_witness :
    expand ((mkGame 1 3 (fun _ j => j == 1) false).restart) 0 0 =
      markRevealed ((mkGame 1 3 (fun _ j => j == 1) false).restart) 0 0 :=
  (C7_cascade_halt_iff_counts.1 ((mkGame 1 3 (fun _ j => j == 1) false).restart)
    0 0 (by decide) (by decide)).1 (by decide)

/-- C8: the flood fill terminates with recursion depth bounded by the cell
count: any fuel beyond rows*cols computes the same result as expand (whose
fuel already provably suffices), and for the rectangular grids the engine
builds the cell count is rows*cols. -/
theorem C8_expand_termination :
    ∀ (fuel : Nat) (g : Game) (i j : Int), rect g.grid →
      gridCells g.grid + 1 ≤ fuel →
      expandF fuel g i j = expand g i j ∧
      gridCells g.grid = rows g.grid * cols g.grid := by
  intro fuel g i j hr hf
  refine ⟨?_, gridCells_eq_of_rect hr⟩
  have h1 : unrevealedCount g.grid ≤ gridCells g.grid := gridCount_le_gridCells _ _
  exact expandF_eq_expand fuel g i j hr (by omega)

/-- Witness for the C8 theorem at a concrete input: fuel 10 exceeds the 4
cells of the 2x2 board and computes the same expansion. -/
theorem C8_expand_termination_witness :
    expandF 10 ((mkGame 2 2 (fun _ _ => false) false).restart) 0 0 =
      expand ((mkGame 2 2 (fun _ _ => false) false).restart) 0 0 :=
  (C8_expand_termination 10 ((mkGame 2 2 (fun _ _ => false) false).restart) 0 0
    (by decide) (by decide)).1

/-- C9: revealing an in-bounds flagged cell returns NA (Rejected) and leaves
the game unchanged, whatever the cell's kind; flagging an in-bounds revealed
cell returns NA (Rejected) and leaves the game unchanged, for either flag
value. -/
theorem C9_illegal_moves_rejected :
    ∀ (g : Game) (i j : Int),
      (inBounds g.grid i j → (cellAt g.grid i j).is_flagged = true →
        try_reveal g i j = (PlayerMove.NA, g)) ∧
      (inBounds g.grid i j → (cellAt g.grid i j).is_revealed = true →
        ∀ v : Bool, try_set_flag g i j v = (PlayerMove.NA, g)) := by
  intro g i j
  constructor
  · intro hin hfl
    exact try_reveal_flagged hin hfl
  · intro hin hrev v
    unfold try_set_flag
    rw [if_neg (not_outside_of_inBounds hin), if_pos hrev]

/-- Witness for the C9 theorem at concrete inputs: a flagged mine cell whose
reveal is rejected with no state change, and a revealed cell whose flagging
is rejected with no state change. -/
theorem C9_illegal_moves_witness :
    try_reveal (try_set_flag (mkGame 1 1 (fun _ _ => true) false) 0 0 true).2 0 0 =
      (PlayerMove.NA, (try_set_flag (mkGame 1 1 (fun _ _ => true) false) 0 0 true).2) ∧
    try_set_flag (try_reveal (mkGame 1 1 (fun _ _ => false) false) 0 0).2 0 0 true =
      (PlayerMove.NA, (try_reveal (mkGame 1 1 (fun _ _ => false) false) 0 0).2) :=
  ⟨(C9_illegal_moves_rejected
      (try_set_flag (mkGame 1 1 (fun _ _ => true) false) 0 0 true).2 0 0).1
    (by decide) (by decide),
   (C9_illegal_moves_rejected
      (try_reveal (mkGame 1 1 (fun _ _ => false) false) 0 0).2 0 0).2
    (by decide) (by decide) true⟩

/-- C10: on an in-bounds unrevealed cell, set_flag returns Success, writes
the requested flag value regardless of the current one, and moves
flagged_count by +1 (value true) or -1 with unsigned 32-bit wraparound
(value false). -/
theorem C10_set_flag_success :
    ∀ (g : Game) (i j : Int) (v : Bool), rect g.grid → inBounds g.grid i j →
      (cellAt g.grid i j).is_revealed = false →
      (try_set_flag g i j v).1 = PlayerMove.Success ∧
      (cellAt (try_set_flag g i j v).2.grid i j).is_flagged = v ∧
      (v = true → (try_set_flag g i j v).2.count_flagged =
        (g.count_flagged + 1) % U32) ∧
      (v = false → (try_set_flag g i j v).2.count_flagged =
        (g.count_flagged + (U32 - 1)) % U32) := by
  intro g i j v hr hin hrev
  rw [try_set_flag_success v hin hrev]
  refine ⟨rfl, ?_, ?_, ?_⟩
  · dsimp only
    rw [cellAt_setCell_self hr hin]
  · intro hv; subst hv; rfl
  · intro hv; subst hv; rfl

/-- Witness for the C10 theorem at a concrete input: flagging the unrevealed
cell of a fresh 1x1 board succeeds. -/
theorem C10_set_flag_witness :
    (try_set_flag (mkGame 1 1 (fun _ _ => false) false) 0 0 true).1 =
      PlayerMove.Success :=
  (C10_set_flag_success (mkGame 1 1 (fun _ _ => false) false) 0 0 true
    (by decide) (by decide) (by decide)).1

end MinesClone